import Mathlib

/-!
# Client identity directory of AdGuard Home (`home/clients.go`)

A shallow embedding of the clients container and a verification of its
specified properties.

Modelling conventions.

* A Go `map[string]V` is the list of its entries (`mapGet`, `mapSet`,
  `mapDelete`).  Go leaves the order in which `range` visits a map
  unspecified, so every function that ranges over a map takes the visiting
  order as an argument, and theorems constrain it to be a permutation of the
  entries of the map.
* `*Client` values are addresses into an explicit heap (`heap`), because
  `Update` compares pointers and both indices share the pointed-to objects.
  `&c` allocates at the end of the heap, `*old = c` overwrites in place.
* `*ClientHost` values are never shared between two keys and never compared,
  so the discovered-host map holds the `ClientHost` values themselves and a
  write through the pointer is a write to the entry.
* The functions of Go's `net` package and the upstream validator of
  `dnsforward` are not part of the modelled sources; the operations take them
  as a parameter `lib : NetLib`.
* A Go slice is the list of its elements; `nil` and the empty slice are both
  the empty list.  A call receives the value of a slice: the backing array is
  not shared between the caller and the container, so `check` returns the
  client with the identifiers it has rewritten instead of writing them in
  place.
* The mutex is not modelled: every operation is a function from the state
  before the call to the state after it.
-/

namespace AdGuardHome

/-! ## Go maps -/

/-- Lookup `m[k]`; `none` is Go's `ok == false`. -/
def mapGet {V : Type} : List (String × V) → String → Option V
  | [], _ => none
  | (k', v) :: rest, k => if k' = k then some v else mapGet rest k

/-- Assignment `m[k] = v`: overwrite the entry of `k`, or add one. -/
def mapSet {V : Type} : List (String × V) → String → V → List (String × V)
  | [], k, v => [(k, v)]
  | (k', v') :: rest, k, v =>
    if k' = k then (k, v) :: rest else (k', v') :: mapSet rest k v

/-- Deletion `delete(m, k)`. -/
def mapDelete {V : Type} (m : List (String × V)) (k : String) : List (String × V) :=
  m.filter (fun e => decide (e.1 ≠ k))

/-! ## External library -/

/-- Value of `net.IP`: a byte slice. -/
abbrev IP := List Nat

/-- Value of `net.HardwareAddr`: a byte slice. -/
abbrev HardwareAddr := List Nat

/-- Value of `net.IPNet`. -/
structure IPNet where
  IP : IP
  Mask : List Nat
deriving DecidableEq

/-- The library functions `clients.go` calls.  `none` stands for a `nil`
address or for a returned error, `ValidateUpstreams` returns the error text. -/
structure NetLib where
  ParseIP : String → Option IP
  ipString : IP → String
  ParseCIDR : String → Option IPNet
  Contains : IPNet → IP → Bool
  ParseMAC : String → Option HardwareAddr
  ValidateUpstreams : List String → Option String

/-! ## Data model -/

/-- Client information (`type Client struct`). -/
structure Client where
  IDs : List String
  Name : String
  UseOwnSettings : Bool
  FilteringEnabled : Bool
  SafeSearchEnabled : Bool
  SafeBrowsingEnabled : Bool
  ParentalEnabled : Bool
  WhoisInfo : List (List String)
  UseOwnBlockedServices : Bool
  BlockedServices : List String
  Upstreams : List String
deriving DecidableEq

/-- The zero value `Client{}`. -/
def Client.zero : Client :=
  { IDs := [], Name := "", UseOwnSettings := false, FilteringEnabled := false,
    SafeSearchEnabled := false, SafeBrowsingEnabled := false, ParentalEnabled := false,
    WhoisInfo := [], UseOwnBlockedServices := false, BlockedServices := [], Upstreams := [] }

/-- Discovery source, `type clientSource uint`. -/
abbrev clientSource := Nat

/-- Source constant `iota = 0`: from WHOIS. -/
def ClientSourceWHOIS : clientSource := 0
/-- Source constant 1: from rDNS. -/
def ClientSourceRDNS : clientSource := 1
/-- Source constant 2: from DHCP. -/
def ClientSourceDHCP : clientSource := 2
/-- Source constant 3: from the output of arp -a. -/
def ClientSourceARP : clientSource := 3
/-- Source constant 4: from /etc/hosts. -/
def ClientSourceHostsFile : clientSource := 4

/-- ClientHost information (`type ClientHost struct`). -/
structure ClientHost where
  Host : String
  Source : clientSource
  WhoisInfo : List (List String)
deriving DecidableEq

/-- The zero value `ClientHost{}`. -/
def ClientHost.zero : ClientHost := { Host := "", Source := 0, WhoisInfo := [] }

/-- Address of a `Client` object in the heap. -/
abbrev Ptr := Nat

/-- State of `clientsContainer`: the heap of `Client` objects, the three maps
and the optional DHCP server, of which only `FindMACbyIP` is used. -/
structure clientsContainer where
  heap : List Client
  list : List (String × Ptr)
  idIndex : List (String × Ptr)
  ipHost : List (String × ClientHost)
  dhcpServer : Option (IP → Option HardwareAddr)

/-- Dereference `*p`. -/
def deref (heap : List Client) (p : Ptr) : Client := heap.getD p Client.zero

/-- Configuration form of a client (`type clientObject struct`). -/
structure clientObject where
  Name : String
  IDs : List String
  UseGlobalSettings : Bool
  FilteringEnabled : Bool
  ParentalEnabled : Bool
  SafeSearchEnabled : Bool
  SafeBrowsingEnabled : Bool
  UseGlobalBlockedServices : Bool
  BlockedServices : List String
  Upstreams : List String
deriving DecidableEq

/-- Container after the three `make` calls of `Init`. -/
def clientsContainer.empty (dhcpServer : Option (IP → Option HardwareAddr)) : clientsContainer :=
  { heap := [], list := [], idIndex := [], ipHost := [], dhcpServer := dhcpServer }

/-! ## Validation -/

/-- The loop of `Client.check` over `c.IDs`: an address is replaced by its
canonical text in place, a subnet or a hardware address is kept, anything else
stops the loop with an error (the identifiers already rewritten stay so). -/
def checkIDs (lib : NetLib) : List String → List String × Option String
  | [] => ([], none)
  | id :: rest =>
    match lib.ParseIP id with
    | some ip => ((lib.ipString ip) :: (checkIDs lib rest).1, (checkIDs lib rest).2)
    | none =>
      if (lib.ParseCIDR id).isSome then (id :: (checkIDs lib rest).1, (checkIDs lib rest).2)
      else if (lib.ParseMAC id).isSome then (id :: (checkIDs lib rest).1, (checkIDs lib rest).2)
      else (id :: rest, some ("Invalid ID: " ++ id))

/-- Embedding of `Client.check`: the client as the call leaves it, and the error. -/
def Client.check (lib : NetLib) (c : Client) : Client × Option String :=
  if c.Name.length = 0 then (c, some "Invalid Name")
  else if c.IDs.length = 0 then (c, some "ID required")
  else
    match checkIDs lib c.IDs with
    | (ids, some e) => ({ c with IDs := ids }, some e)
    | (ids, none) =>
      if c.Upstreams.length ≠ 0 then
        match lib.ValidateUpstreams c.Upstreams with
        | some err => ({ c with IDs := ids }, some ("Invalid upstream servers: " ++ err))
        | none => ({ c with IDs := ids }, none)
      else ({ c with IDs := ids }, none)

/-! ## Operations -/

/-- Embedding of `Exists`. -/
def Exists (clients : clientsContainer) (ip : String) (source : clientSource) : Bool :=
  match mapGet clients.idIndex ip with
  | some _ => true
  | none =>
    match mapGet clients.ipHost ip with
    | none => false
    | some ch => if source > ch.Source then false else true

/-- First loop of `Find` over the clients in the order `order`: the first
client owning a subnet identifier that contains `ipAddr`. -/
def findBySubnet (lib : NetLib) (heap : List Client) (ipAddr : IP) :
    List (String × Ptr) → Option Client
  | [] => none
  | (_, c) :: rest =>
    if (deref heap c).IDs.any (fun id =>
        match lib.ParseCIDR id with
        | none => false
        | some ipnet => lib.Contains ipnet ipAddr)
    then some (deref heap c)
    else findBySubnet lib heap ipAddr rest

/-- Second loop of `Find` over the clients in the order `order`: the first
client owning a hardware address equal to `macFound`. -/
def findByMAC (lib : NetLib) (heap : List Client) (macFound : HardwareAddr) :
    List (String × Ptr) → Option Client
  | [] => none
  | (_, c) :: rest =>
    if (deref heap c).IDs.any (fun id =>
        match lib.ParseMAC id with
        | none => false
        | some hwAddr => decide (hwAddr = macFound))
    then some (deref heap c)
    else findByMAC lib heap macFound rest

/-- Embedding of `Find`; `order1` and `order2` are the orders in which the two
`range clients.list` loops visit the name index. -/
def Find (lib : NetLib) (clients : clientsContainer) (order1 order2 : List (String × Ptr))
    (ip : String) : Client × Bool :=
  match lib.ParseIP ip with
  | none => (Client.zero, false)
  | some ipAddr =>
    match mapGet clients.idIndex ip with
    | some c => (deref clients.heap c, true)
    | none =>
      match findBySubnet lib clients.heap ipAddr order1 with
      | some c => (c, true)
      | none =>
        match clients.dhcpServer with
        | none => (Client.zero, false)
        | some findMACbyIP =>
          match findMACbyIP ipAddr with
          | none => (Client.zero, false)
          | some macFound =>
            match findByMAC lib clients.heap macFound order2 with
            | some c => (c, true)
            | none => (Client.zero, false)

/-- Embedding of `FindAutoClient`. -/
def FindAutoClient (lib : NetLib) (clients : clientsContainer) (ip : String) :
    ClientHost × Bool :=
  match lib.ParseIP ip with
  | none => (ClientHost.zero, false)
  | some _ =>
    match mapGet clients.ipHost ip with
    | some ch => (ch, true)
    | none => (ClientHost.zero, false)

/-- The loop of `Add` and `Update` over `ids` that looks for an identifier
owned by a client that is not `skip` (`Add` skips none): the first such
identifier and its owner. -/
def idConflict (idIndex : List (String × Ptr)) (skip : Option Ptr) :
    List String → Option (String × Ptr)
  | [] => none
  | id :: rest =>
    match mapGet idIndex id with
    | some c2 => if skip = some c2 then idConflict idIndex skip rest else some (id, c2)
    | none => idConflict idIndex skip rest

/-- The loop of `Add` that removes the auto-clients under `ids`, keeping the
WHOIS info of the first one when the client has none: the resulting
`c.WhoisInfo` and `clients.ipHost`. -/
def removeAutoClients :
    List String → List (List String) → List (String × ClientHost) →
      List (List String) × List (String × ClientHost)
  | [], whois, ipHost => (whois, ipHost)
  | id :: rest, whois, ipHost =>
    match mapGet ipHost id with
    | some ch =>
      removeAutoClients rest (if whois.length = 0 then ch.WhoisInfo else whois)
        (mapDelete ipHost id)
    | none => removeAutoClients rest whois ipHost

/-- The loop `for _, id := range ids { idIndex[id] = p }`. -/
def indexIDs (idIndex : List (String × Ptr)) (ids : List String) (p : Ptr) :
    List (String × Ptr) :=
  ids.foldl (fun m id => mapSet m id p) idIndex

/-- The loop `for _, id := range ids { delete(idIndex, id) }`. -/
def unindexIDs (idIndex : List (String × Ptr)) (ids : List String) : List (String × Ptr) :=
  ids.foldl (fun m id => mapDelete m id) idIndex

/-- Embedding of `Add`: the state after the call, the boolean and the error. -/
def Add (lib : NetLib) (clients : clientsContainer) (c : Client) :
    clientsContainer × Bool × Option String :=
  match Client.check lib c with
  | (_, some e) => (clients, false, some e)
  | (c, none) =>
    match mapGet clients.list c.Name with
    | some _ => (clients, false, none)
    | none =>
      match idConflict clients.idIndex none c.IDs with
      | some (id, c2) =>
        (clients, false,
          some ("Another client uses the same ID (" ++ id ++ "): " ++ (deref clients.heap c2).Name))
      | none =>
        let r := removeAutoClients c.IDs c.WhoisInfo clients.ipHost
        let c := { c with WhoisInfo := r.1 }
        let p : Ptr := clients.heap.length
        ({ heap := clients.heap ++ [c],
           list := mapSet clients.list c.Name p,
           idIndex := indexIDs clients.idIndex c.IDs p,
           ipHost := r.2,
           dhcpServer := clients.dhcpServer }, true, none)

/-- Embedding of `Del`. -/
def Del (clients : clientsContainer) (name : String) : clientsContainer × Bool :=
  match mapGet clients.list name with
  | none => (clients, false)
  | some c =>
    ({ clients with
        list := mapDelete clients.list name,
        idIndex := unindexIDs clients.idIndex (deref clients.heap c).IDs }, true)

/-- Embedding of `arraysEqual`. -/
def arraysEqual (a b : List String) : Bool :=
  if a.length ≠ b.length then false
  else (List.zip a b).all (fun p => decide (p.1 = p.2))

/-- Embedding of `Update`: the state after the call and the error. -/
def Update (lib : NetLib) (clients : clientsContainer) (name : String) (c : Client) :
    clientsContainer × Option String :=
  match Client.check lib c with
  | (_, some err) => (clients, some err)
  | (c, none) =>
    match mapGet clients.list name with
    | none => (clients, some "Client not found")
    | some old =>
      let oldc := deref clients.heap old
      if oldc.Name ≠ c.Name ∧ (mapGet clients.list c.Name).isSome then
        (clients, some "Client already exists")
      else
        let idsChanged := !arraysEqual oldc.IDs c.IDs
        match (if idsChanged then idConflict clients.idIndex (some old) c.IDs else none) with
        | some (id, c2) =>
          (clients,
            some ("Another client uses the same ID (" ++ id ++ "): " ++ (deref clients.heap c2).Name))
        | none =>
          let idIndex :=
            if idsChanged then indexIDs (unindexIDs clients.idIndex oldc.IDs) c.IDs old
            else clients.idIndex
          let list :=
            if oldc.Name ≠ c.Name then mapSet (mapDelete clients.list oldc.Name) c.Name old
            else clients.list
          ({ heap := clients.heap.set old c,
             list := list,
             idIndex := idIndex,
             ipHost := clients.ipHost,
             dhcpServer := clients.dhcpServer }, none)

/-- Embedding of `SetWhoisInfo`. -/
def SetWhoisInfo (clients : clientsContainer) (ip : String) (info : List (List String)) :
    clientsContainer :=
  match mapGet clients.idIndex ip with
  | some c =>
    { clients with heap := clients.heap.set c { deref clients.heap c with WhoisInfo := info } }
  | none =>
    match mapGet clients.ipHost ip with
    | some ch => { clients with ipHost := mapSet clients.ipHost ip { ch with WhoisInfo := info } }
    | none =>
      { clients with
          ipHost := mapSet clients.ipHost ip
            { Host := "", Source := ClientSourceWHOIS, WhoisInfo := info } }

/-- Embedding of `AddHost`: the state after the call, the boolean and the error. -/
def AddHost (clients : clientsContainer) (ip host : String) (source : clientSource) :
    clientsContainer × Bool × Option String :=
  match mapGet clients.idIndex ip with
  | some _ => (clients, false, none)
  | none =>
    match mapGet clients.ipHost ip with
    | some ch =>
      if ch.Source > source then (clients, false, none)
      else ({ clients with ipHost := mapSet clients.ipHost ip { ch with Source := source } },
            true, none)
    | none =>
      ({ clients with
          ipHost := mapSet clients.ipHost ip { Host := host, Source := source, WhoisInfo := [] } },
        true, none)

/-- The `Client` that `addFromConfig` builds from a configuration object. -/
def clientObject.toClient (cy : clientObject) : Client :=
  { Name := cy.Name,
    IDs := cy.IDs,
    UseOwnSettings := !cy.UseGlobalSettings,
    FilteringEnabled := cy.FilteringEnabled,
    ParentalEnabled := cy.ParentalEnabled,
    SafeSearchEnabled := cy.SafeSearchEnabled,
    SafeBrowsingEnabled := cy.SafeBrowsingEnabled,
    WhoisInfo := [],
    UseOwnBlockedServices := !cy.UseGlobalBlockedServices,
    BlockedServices := cy.BlockedServices,
    Upstreams := cy.Upstreams }

/-- Embedding of `addFromConfig`: the result of every `Add` is dropped. -/
def addFromConfig (lib : NetLib) (clients : clientsContainer) (objects : List clientObject) :
    clientsContainer :=
  objects.foldl (fun s cy => (Add lib s cy.toClient).1) clients

/-- The `clientObject` that `WriteDiskConfig` builds from a client. -/
def Client.toObject (cli : Client) : clientObject :=
  { Name := cli.Name,
    UseGlobalSettings := !cli.UseOwnSettings,
    FilteringEnabled := cli.FilteringEnabled,
    ParentalEnabled := cli.ParentalEnabled,
    SafeSearchEnabled := cli.SafeSearchEnabled,
    SafeBrowsingEnabled := cli.SafeBrowsingEnabled,
    UseGlobalBlockedServices := !cli.UseOwnBlockedServices,
    IDs := cli.IDs,
    BlockedServices := cli.BlockedServices,
    Upstreams := cli.Upstreams }

/-- Embedding of `WriteDiskConfig`; `order` is the order in which
`range clients.list` visits the name index, `objects` the slice appended to. -/
def WriteDiskConfig (clients : clientsContainer) (order : List (String × Ptr))
    (objects : List clientObject) : List clientObject :=
  order.foldl (fun objs e => objs ++ [(deref clients.heap e.2).toObject]) objects

/-! ## A model of Go's `net` package

The functions below follow the package `net` of the Go standard library as it
was when the source was written (`ParseIP`, `IP.String`, `ParseCIDR`,
`IPNet.Contains`, `ParseMAC`).  They work on the characters of the string,
one byte each.  They give the concrete library `goLib` at which the general
theorems are instantiated and the examples are evaluated. -/

/-- Overflow bound `big` of `dtoi` and `xtoi`. -/
def big : Nat := 0xFFFFFF

/-- Loop of `dtoi`: value so far, characters consumed, no overflow. -/
def dtoiLoop : List Char → Nat → Nat → Nat × Nat × Bool
  | [], n, i => (n, i, true)
  | ch :: rest, n, i =>
    if 48 ≤ ch.toNat ∧ ch.toNat ≤ 57 then
      if n * 10 + (ch.toNat - 48) ≥ big then (big, i, false)
      else dtoiLoop rest (n * 10 + (ch.toNat - 48)) (i + 1)
    else (n, i, true)

/-- Decimal to integer (`dtoi`): number, characters consumed, success. -/
def dtoi (s : List Char) : Nat × Nat × Bool :=
  match dtoiLoop s 0 0 with
  | (n, i, false) => (n, i, false)
  | (n, i, true) => if i = 0 then (0, 0, false) else (n, i, true)

/-- Value of a hexadecimal digit, if the character is one. -/
def hexDigit (ch : Char) : Option Nat :=
  if 48 ≤ ch.toNat ∧ ch.toNat ≤ 57 then some (ch.toNat - 48)
  else if 97 ≤ ch.toNat ∧ ch.toNat ≤ 102 then some (ch.toNat - 97 + 10)
  else if 65 ≤ ch.toNat ∧ ch.toNat ≤ 70 then some (ch.toNat - 65 + 10)
  else none

/-- Loop of `xtoi`: value so far, characters consumed, no overflow. -/
def xtoiLoop : List Char → Nat → Nat → Nat × Nat × Bool
  | [], n, i => (n, i, true)
  | ch :: rest, n, i =>
    match hexDigit ch with
    | some d =>
      if n * 16 + d ≥ big then (0, i, false) else xtoiLoop rest (n * 16 + d) (i + 1)
    | none => (n, i, true)

/-- Hexadecimal to integer (`xtoi`): number, characters consumed, success. -/
def xtoi (s : List Char) : Nat × Nat × Bool :=
  match xtoiLoop s 0 0 with
  | (n, i, false) => (n, i, false)
  | (n, i, true) => if i = 0 then (0, i, false) else (n, i, true)

/-- The twelve bytes `v4InV6Prefix`. -/
def v4InV6Prefix : List Nat := [0, 0, 0, 0, 0, 0, 0, 0, 0, 0, 0xff, 0xff]

/-- Loop of `parseIPv4` for the `k` octets still to read; `first` says that no
dot is expected before the next octet.  Returns the octets and the rest. -/
def parseIPv4Octets : Nat → Bool → List Char → Option (List Nat × List Char)
  | 0, _, s => some ([], s)
  | k + 1, first, s =>
    if s.length = 0 then none
    else
      match (if first then some s else
              match s with
              | '.' :: t => some t
              | _ => none) with
      | none => none
      | some s1 =>
        if !(dtoi s1).2.2 || (dtoi s1).1 > 0xFF then none
        else
          match parseIPv4Octets k false (s1.drop (dtoi s1).2.1) with
          | none => none
          | some (p, s2) => some ((dtoi s1).1 :: p, s2)

/-- Parse an IPv4 address `d.d.d.d` (`parseIPv4`); the result is the 16-byte
form that `IPv4(a, b, c, d)` builds. -/
def parseIPv4 (s : List Char) : Option IP :=
  match parseIPv4Octets 4 true s with
  | some (p, []) => some (v4InV6Prefix ++ p)
  | _ => none

/-- End of `parseIPv6`: the whole string must be used, and a short result is
filled with zeros at the ellipsis. -/
def parseIPv6Finish (ip : List Nat) (ellipsis : Option Nat) (s : List Char) : Option IP :=
  if s.length ≠ 0 then none
  else if ip.length < 16 then
    match ellipsis with
    | none => none
    | some e => some (ip.take e ++ List.replicate (16 - ip.length) 0 ++ ip.drop e)
  else
    match ellipsis with
    | some _ => none
    | none => some ip

/-- Loop of `parseIPv6` (`for i < IPv6len`); `ip` holds the `i` bytes parsed so
far, `fuel` bounds the number of rounds (each round adds at least two bytes). -/
def parseIPv6Loop : Nat → List Nat → Option Nat → List Char → Option IP
  | 0, ip, ellipsis, s => parseIPv6Finish ip ellipsis s
  | fuel + 1, ip, ellipsis, s =>
    if ip.length ≥ 16 then parseIPv6Finish ip ellipsis s
    else if !(xtoi s).2.2 || (xtoi s).1 > 0xFFFF then none
    else if (s.drop (xtoi s).2.1).head? = some '.' then
      if ellipsis = none ∧ ip.length ≠ 12 then none
      else if ip.length + 4 > 16 then none
      else
        match parseIPv4 s with
        | none => none
        | some ip4 => parseIPv6Finish (ip ++ ip4.drop 12) ellipsis []
    else
      match s.drop (xtoi s).2.1 with
      | [] => parseIPv6Finish (ip ++ [(xtoi s).1 / 256, (xtoi s).1 % 256]) ellipsis []
      | [_] => none
      | c0 :: c1 :: t =>
        if c0 ≠ ':' then none
        else if c1 = ':' then
          if ellipsis ≠ none then none
          else if t.length = 0 then
            parseIPv6Finish (ip ++ [(xtoi s).1 / 256, (xtoi s).1 % 256]) (some (ip.length + 2)) []
          else
            parseIPv6Loop fuel (ip ++ [(xtoi s).1 / 256, (xtoi s).1 % 256])
              (some (ip.length + 2)) t
        else
          parseIPv6Loop fuel (ip ++ [(xtoi s).1 / 256, (xtoi s).1 % 256]) ellipsis (c1 :: t)

/-- Parse an IPv6 address (`parseIPv6`, without zone). -/
def parseIPv6 (s : List Char) : Option IP :=
  match s with
  | ':' :: ':' :: t =>
    if t.length = 0 then some (List.replicate 16 0) else parseIPv6Loop 8 [] (some 0) t
  | _ => parseIPv6Loop 8 [] none s

/-- Dispatch of `ParseIP` on the first dot or colon of the string. -/
def parseIPScan (s : List Char) : List Char → Option IP
  | [] => none
  | ch :: rest =>
    if ch = '.' then parseIPv4 s
    else if ch = ':' then parseIPv6 s
    else parseIPScan s rest

/-- Model of `net.ParseIP`. -/
def goParseIP (s : String) : Option IP := parseIPScan s.data s.data

/-- Model of `IP.To4`. -/
def To4 (ip : IP) : Option IP :=
  if ip.length = 4 then some ip
  else if ip.length = 16 ∧ ip.take 10 = List.replicate 10 0 ∧ ip.getD 10 0 = 0xff
      ∧ ip.getD 11 0 = 0xff then some (ip.drop 12)
  else none

/-- Decimal text of a byte (`uitoa`). -/
def uitoa (n : Nat) : List Char :=
  if n < 10 then [Char.ofNat (48 + n)]
  else if n < 100 then [Char.ofNat (48 + n / 10), Char.ofNat (48 + n % 10)]
  else [Char.ofNat (48 + n / 100), Char.ofNat (48 + n / 10 % 10), Char.ofNat (48 + n % 10)]

/-- Lower-case hexadecimal digit of a value below 16. -/
def hexChar (d : Nat) : Char := if d < 10 then Char.ofNat (48 + d) else Char.ofNat (87 + d)

/-- Hexadecimal text of a 16-bit group without leading zeros (`appendHex`). -/
def appendHex (v : Nat) : List Char :=
  if v = 0 then ['0']
  else if v < 16 then [hexChar v]
  else if v < 256 then [hexChar (v / 16), hexChar (v % 16)]
  else if v < 4096 then [hexChar (v / 256), hexChar (v / 16 % 16), hexChar (v % 16)]
  else [hexChar (v / 4096 % 16), hexChar (v / 256 % 16), hexChar (v / 16 % 16), hexChar (v % 16)]

/-- Two hexadecimal digits per byte (`hexString`). -/
def hexString (b : List Nat) : List Char :=
  b.flatMap (fun x => [hexChar (x / 16 % 16), hexChar (x % 16)])

/-- The eight 16-bit groups of a 16-byte address. -/
def groups : List Nat → List Nat
  | hi :: lo :: rest => (hi * 256 + lo) :: groups rest
  | _ => []

/-- Number of zero groups at the head of the list. -/
def zeroRun (g : List Nat) : Nat := (g.takeWhile (fun x => decide (x = 0))).length

/-- Start and length of the longest run of zero groups, the first one among
runs of equal length; length 0 when there is none. -/
def longestZeroRun (g : List Nat) : Nat × Nat :=
  (List.range 8).foldl
    (fun best i => if zeroRun (g.drop i) > best.2 then (i, zeroRun (g.drop i)) else best) (0, 0)

/-- Groups in hexadecimal, separated by colons. -/
def joinGroups (g : List Nat) : List Char :=
  List.intercalate [':'] (g.map appendHex)

/-- Model of `IP.String`. -/
def goIPString (ip : IP) : String :=
  if ip.length = 0 then "<nil>"
  else
    match To4 ip with
    | some p4 =>
      String.mk (uitoa (p4.getD 0 0) ++ ['.'] ++ uitoa (p4.getD 1 0) ++ ['.']
        ++ uitoa (p4.getD 2 0) ++ ['.'] ++ uitoa (p4.getD 3 0))
    | none =>
      if ip.length ≠ 16 then String.mk ('?' :: hexString ip)
      else if (longestZeroRun (groups ip)).2 ≤ 1 then String.mk (joinGroups (groups ip))
      else
        String.mk (joinGroups ((groups ip).take (longestZeroRun (groups ip)).1) ++ [':', ':']
          ++ joinGroups ((groups ip).drop
              ((longestZeroRun (groups ip)).1 + (longestZeroRun (groups ip)).2)))

/-- Model of `CIDRMask(ones, bits)` for `bits = 8 * len`. -/
def CIDRMask (ones len : Nat) : List Nat :=
  (List.range len).map (fun i =>
    if 8 * (i + 1) ≤ ones then 0xff
    else if 8 * i < ones then 256 - 2 ^ (8 - (ones - 8 * i))
    else 0)

/-- Model of `IP.Mask`. -/
def ipMask (ip : IP) (mask : List Nat) : Option IP :=
  let mask :=
    if mask.length = 16 ∧ ip.length = 4 ∧ mask.take 12 = List.replicate 12 0xff
    then mask.drop 12 else mask
  let ip := if mask.length = 4 ∧ ip.length = 16 ∧ ip.take 12 = v4InV6Prefix then ip.drop 12 else ip
  if ip.length ≠ mask.length then none
  else some (List.zipWith (fun a b => a &&& b) ip mask)

/-- Text before the first slash and text after it, if there is a slash. -/
def splitSlash : List Char → Option (List Char × List Char)
  | [] => none
  | ch :: rest =>
    if ch = '/' then some ([], rest)
    else
      match splitSlash rest with
      | none => none
      | some (a, m) => some (ch :: a, m)

/-- Model of `net.ParseCIDR`; only the network is returned. -/
def goParseCIDR (s : String) : Option IPNet :=
  match splitSlash s.data with
  | none => none
  | some (addr, mask) =>
    match (match parseIPv4 addr with
           | some ip => some (ip, 4)
           | none =>
             match parseIPv6 addr with
             | some ip => some (ip, 16)
             | none => none) with
    | none => none
    | some (ip, iplen) =>
      if !(dtoi mask).2.2 || (dtoi mask).2.1 ≠ mask.length || (dtoi mask).1 > 8 * iplen then none
      else
        match ipMask ip (CIDRMask (dtoi mask).1 iplen) with
        | none => none
        | some net => some { IP := net, Mask := CIDRMask (dtoi mask).1 iplen }

/-- Model of `networkNumberAndMask`. -/
def networkNumberAndMask (n : IPNet) : Option (IP × List Nat) :=
  match (match To4 n.IP with
         | some ip => some ip
         | none => if n.IP.length ≠ 16 then none else some n.IP) with
  | none => none
  | some ip =>
    if n.Mask.length = 4 then (if ip.length ≠ 4 then none else some (ip, n.Mask))
    else if n.Mask.length = 16 then
      (if ip.length = 4 then some (ip, n.Mask.drop 12) else some (ip, n.Mask))
    else none

/-- Model of `IPNet.Contains`. -/
def goContains (n : IPNet) (ip : IP) : Bool :=
  match networkNumberAndMask n with
  | none => false
  | some (nn, m) =>
    let ip := match To4 ip with
      | some x => x
      | none => ip
    if ip.length ≠ nn.length then false
    else (List.zip (List.zip nn m) ip).all (fun t => decide (t.1.1 &&& t.1.2 = t.2 &&& t.1.2))

/-- Model of `xtoi2`: the next two hexadecimal digits of `s` as a byte; a third
character, if any, must be `e`. -/
def xtoi2 (s : List Char) (e : Char) : Option Nat :=
  if s.length > 2 ∧ s.getD 2 e ≠ e then none
  else if (xtoi (s.take 2)).2.2 ∧ (xtoi (s.take 2)).2.1 = 2 then some ((xtoi (s.take 2)).1 % 256)
  else none

/-- Loop of `ParseMAC` (first form): `n` bytes, one every three characters. -/
def parseMACBytes (sep : Char) : Nat → List Char → Option (List Nat)
  | 0, _ => some []
  | n + 1, s =>
    match xtoi2 s sep with
    | none => none
    | some b =>
      match parseMACBytes sep n (s.drop 3) with
      | none => none
      | some hw => some (b :: hw)

/-- Loop of `ParseMAC` (second form): `n` pairs of bytes, one pair every five
characters. -/
def parseMACPairs (sep : Char) : Nat → List Char → Option (List Nat)
  | 0, _ => some []
  | n + 1, s =>
    match xtoi2 (s.take 2) (Char.ofNat 0), xtoi2 (s.drop 2) sep with
    | some b0, some b1 =>
      match parseMACPairs sep n (s.drop 5) with
      | none => none
      | some hw => some (b0 :: b1 :: hw)
    | _, _ => none

/-- Model of `net.ParseMAC`. -/
def goParseMAC (s : String) : Option HardwareAddr :=
  if s.data.length < 14 then none
  else if s.data.getD 2 ' ' = ':' ∨ s.data.getD 2 ' ' = '-' then
    if (s.data.length + 1) % 3 ≠ 0 then none
    else if (s.data.length + 1) / 3 ≠ 6 ∧ (s.data.length + 1) / 3 ≠ 8
        ∧ (s.data.length + 1) / 3 ≠ 20 then none
    else parseMACBytes (s.data.getD 2 ' ') ((s.data.length + 1) / 3) s.data
  else if s.data.getD 4 ' ' = '.' then
    if (s.data.length + 1) % 5 ≠ 0 then none
    else if 2 * (s.data.length + 1) / 5 ≠ 6 ∧ 2 * (s.data.length + 1) / 5 ≠ 8
        ∧ 2 * (s.data.length + 1) / 5 ≠ 20 then none
    else parseMACPairs '.' (2 * (s.data.length + 1) / 5 / 2) s.data
  else none

/-- Stand-in for `dnsforward.ValidateUpstreams`, which is outside the modelled
sources: it accepts every list.  `check` calls the validator only for a
non-empty upstream list, and no example below has one. -/
def acceptUpstreams (_ : List String) : Option String := none

/-- The concrete library: the model of Go's `net` and the stand-in validator. -/
def goLib : NetLib :=
  { ParseIP := goParseIP,
    ipString := goIPString,
    ParseCIDR := goParseCIDR,
    Contains := goContains,
    ParseMAC := goParseMAC,
    ValidateUpstreams := acceptUpstreams }

/-! ## Sequences of calls and example states -/

/-- A call of one of the five mutating operations. -/
inductive Op where
  | add (c : Client)
  | update (name : String) (c : Client)
  | del (name : String)
  | addHost (ip host : String) (source : clientSource)
  | setWhoisInfo (ip : String) (info : List (List String))

/-- State after one call; the returned values are dropped. -/
def step (lib : NetLib) (s : clientsContainer) : Op → clientsContainer
  | Op.add c => (Add lib s c).1
  | Op.update name c => (Update lib s name c).1
  | Op.del name => (Del s name).1
  | Op.addHost ip host source => (AddHost s ip host source).1
  | Op.setWhoisInfo ip info => SetWhoisInfo s ip info

/-- State after a sequence of calls, first call first. -/
def run (lib : NetLib) (s : clientsContainer) (ops : List Op) : clientsContainer :=
  ops.foldl (step lib) s

/-- A client with the given name and identifiers, every flag off and no
WHOIS info, blocked services or upstreams. -/
def mkClient (name : String) (ids : List String) : Client :=
  { Client.zero with Name := name, IDs := ids }

/-- Client of scenario A: "laptop" with identifier 192.168.1.10. -/
def scenarioAClient : Client := mkClient "laptop" ["192.168.1.10"]

/-- Directory holding the single client "laptop" with identifier 10.0.0.5. -/
def laptopDir : clientsContainer :=
  (Add goLib (clientsContainer.empty none) (mkClient "laptop" ["10.0.0.5"])).1

/-- Directory of scenario B: "subnet-kids" owns 192.168.1.0/24 and "laptop2"
owns 192.168.1.20. -/
def scenarioB : clientsContainer :=
  run goLib (clientsContainer.empty none)
    [Op.add (mkClient "subnet-kids" ["192.168.1.0/24"]), Op.add (mkClient "laptop2" ["192.168.1.20"])]

/-- Directory holding the single discovered host 10.0.0.5 -> "printer" from ARP. -/
def printerDir : clientsContainer :=
  (AddHost (clientsContainer.empty none) "10.0.0.5" "printer" ClientSourceARP).1

/-- Canonical text of an identifier: the printed address if the text parses as
an address, the text itself otherwise (what `check` leaves in `c.IDs`). -/
def canonID (lib : NetLib) (id : String) : String :=
  match lib.ParseIP id with
  | some ip => lib.ipString ip
  | none => id

/-- WHOIS info carried by the first identifier of `ids`, in list order, whose
discovered-host entry has non-empty WHOIS info; empty if there is none. -/
def firstWhois (ipHost : List (String × ClientHost)) : List String → List (List String)
  | [] => []
  | id :: rest =>
    match mapGet ipHost id with
    | some ch => if ch.WhoisInfo.length ≠ 0 then ch.WhoisInfo else firstWhois ipHost rest
    | none => firstWhois ipHost rest

/-- State that a successful `Add` of `c` produces from `s`. -/
def addedState (lib : NetLib) (s : clientsContainer) (c : Client) : clientsContainer :=
  { heap := s.heap ++
      [{ c with IDs := c.IDs.map (canonID lib),
                WhoisInfo := (removeAutoClients (c.IDs.map (canonID lib)) c.WhoisInfo s.ipHost).1 }],
    list := mapSet s.list c.Name s.heap.length,
    idIndex := indexIDs s.idIndex (c.IDs.map (canonID lib)) s.heap.length,
    ipHost := (removeAutoClients (c.IDs.map (canonID lib)) c.WhoisInfo s.ipHost).2,
    dhcpServer := s.dhcpServer }

/-- Directory holding two discovered hosts and no client: the texts
"::ffff:10.0.0.5" (from the hosts file) and "10.0.0.5" (from ARP) are two keys
of the discovered-host map. -/
def twoTextsDir : clientsContainer :=
  run goLib (clientsContainer.empty none)
    [Op.addHost "::ffff:10.0.0.5" "mapped" ClientSourceHostsFile,
     Op.addHost "10.0.0.5" "plain" ClientSourceARP]

/-- State that a successful `Update` of the client at `old` to `c` produces. -/
def updatedState (lib : NetLib) (s : clientsContainer) (c : Client) (old : Ptr) :
    clientsContainer :=
  { heap := s.heap.set old { c with IDs := c.IDs.map (canonID lib) },
    list :=
      if (deref s.heap old).Name ≠ c.Name
      then mapSet (mapDelete s.list (deref s.heap old).Name) c.Name old
      else s.list,
    idIndex :=
      if arraysEqual (deref s.heap old).IDs (c.IDs.map (canonID lib)) = true then s.idIndex
      else indexIDs (unindexIDs s.idIndex (deref s.heap old).IDs) (c.IDs.map (canonID lib)) old,
    ipHost := s.ipHost,
    dhcpServer := s.dhcpServer }

/-- Consistency of the heap and the two indices: both maps have one entry per
key, every entry of the name index points to an allocated client of that name,
and the identifier index holds exactly the identifiers of the clients of the
name index, each under its owner. -/
def WellFormed (s : clientsContainer) : Prop :=
  (s.list.map Prod.fst).Nodup ∧ (s.idIndex.map Prod.fst).Nodup ∧
  (∀ n p, mapGet s.list n = some p → p < s.heap.length ∧ (deref s.heap p).Name = n) ∧
  (∀ id p, mapGet s.idIndex id = some p ↔
    ∃ n, mapGet s.list n = some p ∧ id ∈ (deref s.heap p).IDs)

/-- Uniqueness invariant of the registry: names are unique and every client is
stored under its own name; two distinct clients are distinct objects and share
no identifier; the identifier index has one entry per key, and its entries are
exactly the pairs of a stored identifier and its owner. -/
def Uniqueness (s : clientsContainer) : Prop :=
  (s.list.map Prod.fst).Nodup ∧
  (∀ n p, (n, p) ∈ s.list → (deref s.heap p).Name = n) ∧
  (∀ n1 p1 n2 p2, (n1, p1) ∈ s.list → (n2, p2) ∈ s.list → n1 ≠ n2 →
    p1 ≠ p2 ∧ ∀ id ∈ (deref s.heap p1).IDs, id ∉ (deref s.heap p2).IDs) ∧
  (s.idIndex.map Prod.fst).Nodup ∧
  (∀ id p, (id, p) ∈ s.idIndex ↔ ∃ n, (n, p) ∈ s.list ∧ id ∈ (deref s.heap p).IDs)

/-- Shadowing invariant: no discovered-host entry under a key of the
identifier index. -/
def Shadowing (s : clientsContainer) : Prop :=
  ∀ k p, mapGet s.idIndex k = some p → mapGet s.ipHost k = none

/-- Whether the call is a call of `Update`. -/
def Op.isUpdate : Op → Bool
  | Op.update _ _ => true
  | _ => false

/-- Directory of the shadowing example: the host 10.0.0.5 is discovered from
ARP, the client "laptop" is added with identifier 10.0.0.1 and then updated to
identifier 10.0.0.5. -/
def shadowedDir : clientsContainer :=
  run goLib (clientsContainer.empty none)
    [Op.addHost "10.0.0.5" "printer" ClientSourceARP,
     Op.add (mkClient "laptop" ["10.0.0.1"]),
     Op.update "laptop" (mkClient "laptop" ["10.0.0.5"])]

/-- A configuration object with its identifiers in canonical text. -/
def canonObject (lib : NetLib) (cy : clientObject) : clientObject :=
  { cy with IDs := cy.IDs.map (canonID lib) }

/-- A configuration object with the given name and identifiers, global
settings in use, every flag off and no blocked services or upstreams. -/
def mkObject (name : String) (ids : List String) : clientObject :=
  { Name := name, IDs := ids, UseGlobalSettings := true, FilteringEnabled := false,
    ParentalEnabled := false, SafeSearchEnabled := false, SafeBrowsingEnabled := false,
    UseGlobalBlockedServices := true, BlockedServices := [], Upstreams := [] }

/-- Configuration of two clients, "kids" with 10.0.0.1 and "laptop" with 10.0.0.2. -/
def twoClients : List clientObject :=
  [mkObject "kids" ["10.0.0.1"], mkObject "laptop" ["10.0.0.2"]]

/-- Configuration of one client whose identifier is an address that is not in
canonical text. -/
def mappedClient : List clientObject := [mkObject "phone" ["::ffff:10.0.0.5"]]

/-- Whether an identifier parses as an address, as a subnet or as a hardware
address. -/
def classifiable (lib : NetLib) (id : String) : Bool :=
  (lib.ParseIP id).isSome || (lib.ParseCIDR id).isSome || (lib.ParseMAC id).isSome

/-- Validity of a client: the name and the identifier list are not empty, every
identifier parses as an address, a subnet or a hardware address, and a
non-empty upstream list is accepted by the upstream validator. -/
def validClient (lib : NetLib) (c : Client) : Prop :=
  c.Name.length ≠ 0 ∧ c.IDs.length ≠ 0 ∧ (∀ id ∈ c.IDs, classifiable lib id = true) ∧
  (c.Upstreams.length ≠ 0 → lib.ValidateUpstreams c.Upstreams = none)

/-- A directory state is reachable if a sequence of calls of the five mutating
operations leads to it from an empty directory. -/
def Reachable (lib : NetLib) (s : clientsContainer) : Prop :=
  ∃ dhcp ops, s = run lib (clientsContainer.empty dhcp) ops

/-- The client has a subnet-type identifier whose network contains the
address `A`. -/
def ownsSubnetContaining (lib : NetLib) (c : Client) (A : IP) : Prop :=
  ∃ id ∈ c.IDs, ∃ ipnet, lib.ParseCIDR id = some ipnet ∧ lib.Contains ipnet A = true

/-! ## Subnet masks (`dhcpd/helpers.go`) -/

/-- Value of `binary.BigEndian.Uint32` on a byte slice: the first four bytes,
most significant first; `none` stands for the panic on a shorter slice. -/
def bigEndianUint32 : List Nat → Option Nat
  | b0 :: b1 :: b2 :: b3 :: _ => some (b0 * 2 ^ 24 + b1 * 2 ^ 16 + b2 * 2 ^ 8 + b3)
  | _ => none

/-- The loop of `isValidSubnetMask` on the 32-bit value `n`, with `fuel` rounds
left before the counter reaches 32: the returned boolean, and the number of
rounds entered. -/
def maskLoop : Nat → Nat → Bool × Nat
  | 0, _ => (true, 0)
  | fuel + 1, n =>
    if n = 0 then (true, 1)
    else if n &&& 0x80000000 = 0 then (false, 1)
    else ((maskLoop fuel ((n <<< 1) % 2 ^ 32)).1, (maskLoop fuel ((n <<< 1) % 2 ^ 32)).2 + 1)

/-- Embedding of `isValidSubnetMask`. -/
def isValidSubnetMask (mask : List Nat) : Option Bool :=
  match bigEndianUint32 mask with
  | none => none
  | some n => some (maskLoop 32 n).1

/-- The 32-bit value whose bits, most significant first, are `k` ones followed
by `32 - k` zeros. -/
def prefixMask (k : Nat) : Nat :=
  (List.replicate k 1 ++ List.replicate (32 - k) 0).foldl (fun acc b => 2 * acc + b) 0

/-! ## The line parser of `addFromSystemARP`

A line is the list of its bytes, each written as a character; positions are
byte offsets, as in Go. -/

/-- Whether `sub` occurs at the start of `s`. -/
def startsWith : List Char → List Char → Bool
  | _, [] => true
  | [], _ :: _ => false
  | a :: s, b :: sub => decide (a = b) && startsWith s sub

/-- First position at which `sub` occurs in `s`, if it occurs. -/
def indexFrom : List Char → List Char → Option Nat
  | [], sub => if startsWith [] sub then some 0 else none
  | a :: s, sub =>
    if startsWith (a :: s) sub then some 0
    else
      match indexFrom s sub with
      | some i => some (i + 1)
      | none => none

/-- Model of `strings.Index`: the first position of `sub` in `s`, or -1. -/
def Index (s sub : List Char) : Int :=
  match indexFrom s sub with
  | some i => (i : Int)
  | none => -1

/-- The slice expression `s[lo:hi]`; `none` stands for the panic on bounds out
of range. -/
def slice (s : List Char) (lo hi : Int) : Option (List Char) :=
  if 0 ≤ lo ∧ lo ≤ hi ∧ hi ≤ (s.length : Int)
  then some ((s.drop lo.toNat).take (hi.toNat - lo.toNat))
  else none

/-- What the loop body of `addFromSystemARP` makes of a line before it
validates the fields: the line is skipped, or `host` and `ip` are taken, or a
slice expression is out of range. -/
inductive ARPLine where
  | skipped
  | fields (host ip : List Char)
  | outOfRange
deriving DecidableEq

/-- Embedding of the first part of the loop body of `addFromSystemARP`: the two
`strings.Index` calls, the test that skips the line, and the two slices. -/
def parseARPLine (ln : List Char) : ARPLine :=
  if Index ln [' ', '('] = -1 ∨ Index ln [')', ' '] = -1
      ∨ Index ln [' ', '('] ≥ Index ln [')', ' '] then ARPLine.skipped
  else
    match slice ln 0 (Index ln [' ', '(']),
        slice ln (Index ln [' ', '('] + 2) (Index ln [')', ' ']) with
    | some host, some ip => ARPLine.fields host ip
    | _, _ => ARPLine.outOfRange

/-- A line of the output of arp -a. -/
def arpLine : List Char := "router (192.168.1.1) at aa:bb:cc:dd:ee:ff on eth0".data

/-- Directory holding the single discovered host 10.0.0.5 -> "pc" from DHCP. -/
def dhcpHostDir : clientsContainer :=
  (AddHost (clientsContainer.empty none) "10.0.0.5" "pc" ClientSourceDHCP).1

/-- Directory holding the clients "laptop" with identifier 10.0.0.5 and "phone"
with identifier 10.0.0.6. -/
def twoOwnersDir : clientsContainer :=
  run goLib (clientsContainer.empty none)
    [Op.add (mkClient "laptop" ["10.0.0.5"]), Op.add (mkClient "phone" ["10.0.0.6"])]

/-! ## Lemmas on maps -/

theorem mapGet_mapSet {V : Type} (m : List (String × V)) (k k' : String) (v : V) :
    mapGet (mapSet m k v) k' = if k = k' then some v else mapGet m k' := by
  induction m with
  | nil => simp [mapSet, mapGet]
  | cons e rest ih =>
    obtain ⟨k0, v0⟩ := e
    by_cases h0 : k0 = k
    · subst h0
      by_cases h1 : k0 = k' <;> simp [mapSet, mapGet, h1]
    · by_cases h1 : k0 = k'
      · subst h1
        have h2 : ¬ k = k0 := fun h => h0 h.symm
        simp [mapSet, mapGet, h0, h2]
      · simp [mapSet, mapGet, h0, h1, ih]

theorem mapGet_mapSet_self {V : Type} (m : List (String × V)) (k : String) (v : V) :
    mapGet (mapSet m k v) k = some v := by
  simp [mapGet_mapSet]

theorem mapGet_mapDelete {V : Type} (m : List (String × V)) (k k' : String) :
    mapGet (mapDelete m k) k' = if k = k' then none else mapGet m k' := by
  induction m with
  | nil => simp [mapDelete, mapGet]
  | cons e rest ih =>
    obtain ⟨k0, v0⟩ := e
    unfold mapDelete at ih ⊢
    by_cases h0 : k0 = k
    · subst h0
      by_cases h1 : k0 = k'
      · simp [List.filter, mapGet, h1] at ih ⊢
        simpa [h1] using ih
      · simp [List.filter, mapGet, h1] at ih ⊢
        simpa [h1] using ih
    · by_cases h1 : k0 = k'
      · subst h1
        have h2 : ¬ k = k0 := fun h => h0 h.symm
        simp [List.filter, mapGet, h0, h2]
      · simp [List.filter, mapGet, h0, h1]
        simpa using ih

theorem mapGet_indexIDs (m : List (String × Ptr)) (ids : List String) (p : Ptr) (k : String) :
    mapGet (indexIDs m ids p) k = if k ∈ ids then some p else mapGet m k := by
  unfold indexIDs
  induction ids generalizing m with
  | nil => simp
  | cons id rest ih =>
    rw [List.foldl_cons, ih, mapGet_mapSet]
    by_cases h1 : k ∈ rest
    · simp [h1]
    · by_cases h2 : id = k
      · simp [h2]
      · have h3 : ¬ k = id := fun h => h2 h.symm
        simp [h1, h2, h3]

theorem mapGet_unindexIDs (m : List (String × Ptr)) (ids : List String) (k : String) :
    mapGet (unindexIDs m ids) k = if k ∈ ids then none else mapGet m k := by
  unfold unindexIDs
  induction ids generalizing m with
  | nil => simp
  | cons id rest ih =>
    rw [List.foldl_cons, ih, mapGet_mapDelete]
    by_cases h1 : k ∈ rest
    · simp [h1]
    · by_cases h2 : id = k
      · simp [h2]
      · have h3 : ¬ k = id := fun h => h2 h.symm
        simp [h1, h2, h3]

theorem mapDelete_of_absent {V : Type} (m : List (String × V)) (k : String)
    (h : mapGet m k = none) : mapDelete m k = m := by
  induction m with
  | nil => rfl
  | cons e rest ih =>
    obtain ⟨k0, v0⟩ := e
    by_cases h0 : k0 = k
    · simp [mapGet, h0] at h
    · simp only [mapGet, h0, if_false] at h
      have ih1 := ih h
      unfold mapDelete at ih1 ⊢
      rw [List.filter_cons_of_pos (by simpa using h0), ih1]

theorem mapGet_eq_none_iff {V : Type} (m : List (String × V)) (k : String) :
    mapGet m k = none ↔ k ∉ m.map Prod.fst := by
  induction m with
  | nil => simp [mapGet]
  | cons e rest ih =>
    obtain ⟨k0, v0⟩ := e
    by_cases h0 : k0 = k
    · simp [mapGet, h0]
    · have h1 : ¬ k = k0 := fun h => h0 h.symm
      simp [mapGet, h0, h1, ih]

theorem mem_iff_mapGet {V : Type} (m : List (String × V)) (hnd : (m.map Prod.fst).Nodup)
    (k : String) (v : V) : (k, v) ∈ m ↔ mapGet m k = some v := by
  induction m with
  | nil => simp [mapGet]
  | cons e rest ih =>
    obtain ⟨k0, v0⟩ := e
    simp only [List.map_cons, List.nodup_cons] at hnd
    obtain ⟨hk0, hrest⟩ := hnd
    by_cases h0 : k0 = k
    · subst h0
      have hnot : ∀ v1, (k0, v1) ∉ rest := by
        intro v1 hmem
        exact hk0 (List.mem_map.mpr ⟨(k0, v1), hmem, rfl⟩)
      simp only [List.mem_cons, mapGet, if_true, Prod.mk.injEq, true_and, Option.some.injEq]
      constructor
      · rintro (h | h)
        · exact h.symm
        · exact absurd h (hnot v)
      · intro h
        exact Or.inl h.symm
    · have h1 : ¬ k = k0 := fun h => h0 h.symm
      simp [mapGet, h0, h1, ih hrest]

theorem keys_mapSet {V : Type} (m : List (String × V)) (k : String) (v : V) :
    (mapSet m k v).map Prod.fst
      = if k ∈ m.map Prod.fst then m.map Prod.fst else m.map Prod.fst ++ [k] := by
  induction m with
  | nil => simp [mapSet]
  | cons e rest ih =>
    obtain ⟨k0, v0⟩ := e
    by_cases h0 : k0 = k
    · subst h0
      simp [mapSet]
    · have h1 : ¬ k = k0 := fun h => h0 h.symm
      simp only [mapSet, h0, if_false, List.map_cons, ih, List.mem_cons, h1, false_or]
      by_cases h2 : k ∈ rest.map Prod.fst
      · simp [h2]
      · simp [h2]

theorem mapSet_of_absent {V : Type} (m : List (String × V)) (k : String) (v : V)
    (h : mapGet m k = none) : mapSet m k v = m ++ [(k, v)] := by
  induction m with
  | nil => rfl
  | cons e rest ih =>
    obtain ⟨k0, v0⟩ := e
    by_cases h0 : k0 = k
    · simp [mapGet, h0] at h
    · simp only [mapGet, h0, if_false] at h
      simp [mapSet, h0, ih h]

theorem nodup_keys_mapSet {V : Type} (m : List (String × V)) (k : String) (v : V)
    (hnd : (m.map Prod.fst).Nodup) : ((mapSet m k v).map Prod.fst).Nodup := by
  rw [keys_mapSet]
  by_cases h : k ∈ m.map Prod.fst
  · simpa [h] using hnd
  · simp only [h, if_false]
    exact List.Nodup.append hnd (List.nodup_singleton k) (by simpa using h)

theorem nodup_keys_mapDelete {V : Type} (m : List (String × V)) (k : String)
    (hnd : (m.map Prod.fst).Nodup) : ((mapDelete m k).map Prod.fst).Nodup :=
  List.Nodup.sublist (List.Sublist.map Prod.fst (List.filter_sublist m)) hnd

theorem nodup_keys_indexIDs (m : List (String × Ptr)) (ids : List String) (p : Ptr)
    (hnd : (m.map Prod.fst).Nodup) : ((indexIDs m ids p).map Prod.fst).Nodup := by
  unfold indexIDs
  induction ids generalizing m with
  | nil => simpa using hnd
  | cons id rest ih =>
    rw [List.foldl_cons]
    exact ih _ (nodup_keys_mapSet m id p hnd)

theorem nodup_keys_unindexIDs (m : List (String × Ptr)) (ids : List String)
    (hnd : (m.map Prod.fst).Nodup) : ((unindexIDs m ids).map Prod.fst).Nodup := by
  unfold unindexIDs
  induction ids generalizing m with
  | nil => simpa using hnd
  | cons id rest ih =>
    rw [List.foldl_cons]
    exact ih _ (nodup_keys_mapDelete m id hnd)

theorem arraysEqual_iff (a b : List String) : arraysEqual a b = true ↔ a = b := by
  induction a generalizing b with
  | nil =>
    cases b with
    | nil => simp [arraysEqual]
    | cons y ys => simp [arraysEqual]
  | cons x xs ih =>
    cases b with
    | nil => simp [arraysEqual]
    | cons y ys =>
      have h := ih ys
      unfold arraysEqual at h ⊢
      by_cases hl : xs.length = ys.length
      · simp only [hl, ne_eq, not_true_eq_false, if_false] at h
        simp only [List.length_cons, hl, ne_eq, not_true_eq_false, if_false, List.zip_cons_cons,
          List.all_cons, Bool.and_eq_true, decide_eq_true_eq, h, List.cons.injEq]
      · have hne : ¬ xs = ys := fun e => hl (by rw [e])
        simp [hl, hne]

/-! ## Lemmas on the loops of `Add` and `Update` -/

theorem idConflict_none_iff (idIndex : List (String × Ptr)) (ids : List String) :
    idConflict idIndex none ids = none ↔ ∀ id ∈ ids, mapGet idIndex id = none := by
  induction ids with
  | nil => simp [idConflict]
  | cons id rest ih =>
    cases h : mapGet idIndex id with
    | none => simp [idConflict, h, ih]
    | some c2 => simp [idConflict, h]

theorem idConflict_skip_none_iff (idIndex : List (String × Ptr)) (old : Ptr) (ids : List String) :
    idConflict idIndex (some old) ids = none ↔
      ∀ id ∈ ids, mapGet idIndex id = none ∨ mapGet idIndex id = some old := by
  induction ids with
  | nil => simp [idConflict]
  | cons id rest ih =>
    cases h : mapGet idIndex id with
    | none => simp [idConflict, h, ih]
    | some c2 =>
      by_cases h2 : old = c2
      · subst h2
        simp [idConflict, h, ih]
      · have h3 : ¬ c2 = old := fun e => h2 e.symm
        simp [idConflict, h, h2, h3]

theorem removeAutoClients_ipHost (ids : List String) (whois : List (List String))
    (ipHost : List (String × ClientHost)) :
    (removeAutoClients ids whois ipHost).2 = ipHost.filter (fun e => decide (e.1 ∉ ids)) := by
  induction ids generalizing whois ipHost with
  | nil => simp [removeAutoClients]
  | cons id rest ih =>
    have hfil : ∀ m : List (String × ClientHost),
        (mapDelete m id).filter (fun e => decide (e.1 ∉ rest))
          = m.filter (fun e => decide (e.1 ∉ id :: rest)) := by
      intro m
      unfold mapDelete
      rw [List.filter_filter]
      congr 1
      funext e
      by_cases h1 : e.1 = id <;> by_cases h2 : e.1 ∈ rest <;> simp [h1, h2]
    cases h : mapGet ipHost id with
    | none =>
      simp only [removeAutoClients, h]
      rw [ih, ← hfil, mapDelete_of_absent ipHost id h]
    | some ch =>
      simp only [removeAutoClients, h]
      rw [ih, hfil]

theorem mapGet_filter_keys {V : Type} (m : List (String × V)) (ids : List String) (k : String) :
    mapGet (m.filter (fun e => decide (e.1 ∉ ids))) k = if k ∈ ids then none else mapGet m k := by
  induction m with
  | nil => simp [mapGet]
  | cons e rest ih =>
    obtain ⟨k0, v0⟩ := e
    by_cases h0 : k0 ∈ ids
    · rw [List.filter_cons_of_neg (by simpa using h0), ih]
      by_cases h1 : k0 = k
      · subst h1
        simp [h0]
      · simp [mapGet, h1]
    · rw [List.filter_cons_of_pos (by simpa using h0)]
      by_cases h1 : k0 = k
      · subst h1
        simp [mapGet, h0]
      · simp only [mapGet, h1, if_false]
        exact ih

theorem firstWhois_mapDelete_empty (ipHost : List (String × ClientHost)) (id : String)
    (ch : ClientHost) (h : mapGet ipHost id = some ch) (hw : ch.WhoisInfo.length = 0)
    (ids : List String) :
    firstWhois (mapDelete ipHost id) ids = firstWhois ipHost ids := by
  induction ids with
  | nil => rfl
  | cons id1 rest ih =>
    by_cases h1 : id = id1
    · subst h1
      simp [firstWhois, mapGet_mapDelete, h, hw, ih]
    · simp [firstWhois, mapGet_mapDelete, h1, ih]

theorem removeAutoClients_whois (ids : List String) (whois : List (List String))
    (ipHost : List (String × ClientHost)) :
    (removeAutoClients ids whois ipHost).1
      = if whois.length ≠ 0 then whois else firstWhois ipHost ids := by
  induction ids generalizing whois ipHost with
  | nil =>
    cases whois <;> simp [removeAutoClients, firstWhois]
  | cons id rest ih =>
    cases h : mapGet ipHost id with
    | none => simp only [removeAutoClients, h, firstWhois, ih]
    | some ch =>
      simp only [removeAutoClients, h, firstWhois, ih]
      by_cases hw : whois.length = 0
      · by_cases hc : ch.WhoisInfo.length = 0
        · simp [hw, hc, firstWhois_mapDelete_empty ipHost id ch h hc]
        · simp [hw, hc]
      · simp [hw]

/-! ## Lemmas on `check` -/

theorem checkIDs_ok (lib : NetLib) (ids : List String) (h : (checkIDs lib ids).2 = none) :
    (checkIDs lib ids).1 = ids.map (canonID lib) := by
  induction ids with
  | nil => rfl
  | cons id rest ih =>
    cases hp : lib.ParseIP id with
    | some ip =>
      simp only [checkIDs, hp] at h ⊢
      simp [canonID, hp, ih h]
    | none =>
      by_cases hc : (lib.ParseCIDR id).isSome
      · simp only [checkIDs, hp, hc, if_true] at h ⊢
        simp [canonID, hp, ih h]
      · by_cases hm : (lib.ParseMAC id).isSome
        · simp only [checkIDs, hp, hc, hm, if_true] at h ⊢
          simp [canonID, hp, ih h]
        · simp [checkIDs, hp, hc, hm] at h

theorem check_ok (lib : NetLib) (c : Client) (h : (Client.check lib c).2 = none) :
    (Client.check lib c).1 = { c with IDs := c.IDs.map (canonID lib) } ∧
      (checkIDs lib c.IDs).2 = none := by
  unfold Client.check at h ⊢
  by_cases h1 : c.Name.length = 0
  · simp [h1] at h
  · by_cases h2 : c.IDs.length = 0
    · simp [h1, h2] at h
    · simp only [h1, h2, if_false] at h ⊢
      cases hids : checkIDs lib c.IDs with
      | mk ids e =>
        cases e with
        | some e => simp [hids] at h
        | none =>
          have hmap := checkIDs_ok lib c.IDs (by rw [hids])
          rw [hids] at hmap
          simp only at hmap
          subst hmap
          by_cases h3 : c.Upstreams.length ≠ 0
          · cases hv : lib.ValidateUpstreams c.Upstreams with
            | some err => simp [hids, h3, hv] at h
            | none => simp [h3, hv]
          · simp [h3]

/-! ## Lemmas on `Add` -/

theorem Add_of_ok (lib : NetLib) (s : clientsContainer) (c : Client)
    (hvalid : (Client.check lib c).2 = none) (hname : mapGet s.list c.Name = none)
    (hids : ∀ id ∈ c.IDs.map (canonID lib), mapGet s.idIndex id = none) :
    Add lib s c = (addedState lib s c, true, none) := by
  obtain ⟨h1, _⟩ := check_ok lib c hvalid
  have hc : Client.check lib c = ({ c with IDs := c.IDs.map (canonID lib) }, none) :=
    Prod.ext h1 hvalid
  have hconf := (idConflict_none_iff s.idIndex (c.IDs.map (canonID lib))).mpr hids
  simp [Add, hc, hname, hconf, addedState]

theorem Add_cases (lib : NetLib) (s : clientsContainer) (c : Client) :
    ((Add lib s c).1 = s ∧ (Add lib s c).2.1 = false) ∨
    ((Client.check lib c).2 = none ∧ mapGet s.list c.Name = none ∧
      (∀ id ∈ c.IDs.map (canonID lib), mapGet s.idIndex id = none) ∧
      Add lib s c = (addedState lib s c, true, none)) := by
  cases hv : (Client.check lib c).2 with
  | some e =>
    left
    have hc : Client.check lib c = ((Client.check lib c).1, some e) := Prod.ext rfl hv
    unfold Add
    rw [hc]
    exact ⟨rfl, rfl⟩
  | none =>
    obtain ⟨h1, _⟩ := check_ok lib c hv
    have hc : Client.check lib c = ({ c with IDs := c.IDs.map (canonID lib) }, none) :=
      Prod.ext h1 hv
    cases hn : mapGet s.list c.Name with
    | some p =>
      left
      simp [Add, hc, hn]
    | none =>
      cases hconf : idConflict s.idIndex none (c.IDs.map (canonID lib)) with
      | some r =>
        left
        simp [Add, hc, hn, hconf]
      | none =>
        right
        have hids := (idConflict_none_iff s.idIndex (c.IDs.map (canonID lib))).mp hconf
        exact ⟨rfl, rfl, hids, Add_of_ok lib s c hv hn hids⟩

/-! ## Lemmas on `Update` -/

theorem Update_cases (lib : NetLib) (s : clientsContainer) (name : String) (c : Client) :
    ((Update lib s name c).1 = s ∧ (Update lib s name c).2 ≠ none) ∨
    ∃ old, (Client.check lib c).2 = none ∧ mapGet s.list name = some old ∧
      ((deref s.heap old).Name = c.Name ∨ mapGet s.list c.Name = none) ∧
      (arraysEqual (deref s.heap old).IDs (c.IDs.map (canonID lib)) = true ∨
        ∀ id ∈ c.IDs.map (canonID lib),
          mapGet s.idIndex id = none ∨ mapGet s.idIndex id = some old) ∧
      Update lib s name c = (updatedState lib s c old, none) := by
  cases hv : (Client.check lib c).2 with
  | some e =>
    left
    have hc : Client.check lib c = ((Client.check lib c).1, some e) := Prod.ext rfl hv
    unfold Update
    rw [hc]
    simp
  | none =>
    obtain ⟨h1, _⟩ := check_ok lib c hv
    have hc : Client.check lib c = ({ c with IDs := c.IDs.map (canonID lib) }, none) :=
      Prod.ext h1 hv
    cases hn : mapGet s.list name with
    | none =>
      left
      simp [Update, hc, hn]
    | some old =>
      by_cases hname : (deref s.heap old).Name ≠ c.Name ∧ (mapGet s.list c.Name).isSome = true
      · left
        simp [Update, hc, hn, hname]
      · have hname1 : (deref s.heap old).Name = c.Name ∨ mapGet s.list c.Name = none := by
          by_cases hh : (deref s.heap old).Name = c.Name
          · exact Or.inl hh
          · right
            have : ¬ (mapGet s.list c.Name).isSome = true := fun h => hname ⟨hh, h⟩
            simpa using this
        by_cases heq : arraysEqual (deref s.heap old).IDs (c.IDs.map (canonID lib)) = true
        · right
          refine ⟨old, rfl, rfl, hname1, Or.inl heq, ?_⟩
          simp only [Update, hc, hn, updatedState]
          rw [if_neg hname]
          simp [heq]
        · cases hconf : idConflict s.idIndex (some old) (c.IDs.map (canonID lib)) with
          | some r =>
            left
            simp only [Update, hc, hn]
            rw [if_neg hname]
            simp [heq, hconf]
          | none =>
            right
            have hfree := (idConflict_skip_none_iff s.idIndex old _).mp hconf
            refine ⟨old, rfl, rfl, hname1, Or.inr hfree, ?_⟩
            simp only [Update, hc, hn, updatedState]
            rw [if_neg hname]
            simp [heq, hconf]

/-! ## Discovered hosts: `AddHost` -/

/-- What `AddHost` does to an existing entry of equal or lower rank: only the
source is replaced, the stored hostname stays. -/
theorem AddHost_existing_entry (clients : clientsContainer) (a h : String) (s : clientSource)
    (ch : ClientHost) (hfree : mapGet clients.idIndex a = none)
    (hent : mapGet clients.ipHost a = some ch) (hge : ch.Source ≤ s) :
    AddHost clients a h s =
      ({ clients with ipHost := mapSet clients.ipHost a { ch with Source := s } }, true, none) := by
  have hn : ¬ ch.Source > s := Nat.not_lt.mpr hge
  simp [AddHost, hfree, hent, hn]

/-- C1: evaluation at scenario C.  After `AddHost("10.0.0.5", "printer", ARP)`,
the call `AddHost("10.0.0.5", "printer.local", HostsFile)` returns `added = true`
without error, and `FindAutoClient("10.0.0.5")` then returns the source
HostsFile with the old hostname "printer": the hostname is not overwritten. -/
theorem C1_AddHost_keeps_old_hostname :
    (AddHost printerDir "10.0.0.5" "printer.local" ClientSourceHostsFile).2 = (true, none) ∧
    FindAutoClient goLib
        (AddHost printerDir "10.0.0.5" "printer.local" ClientSourceHostsFile).1 "10.0.0.5"
      = ({ Host := "printer", Source := ClientSourceHostsFile, WhoisInfo := [] }, true) := by
  decide

/-- C4 (shadow law): if `a` is a key of the identifier index, that is a stored
identifier of a configured client, then `AddHost(a, h, s)` returns
`added = false` without error for every hostname and every source, and the
container (name index, identifier index, discovered-host map) is unchanged. -/
theorem C4_AddHost_shadowed (clients : clientsContainer) (a h : String) (s : clientSource)
    (p : Ptr) (hown : mapGet clients.idIndex a = some p) :
    AddHost clients a h s = (clients, false, none) := by
  simp [AddHost, hown]

theorem C4_AddHost_shadowed_witness :
    mapGet laptopDir.idIndex "10.0.0.5" = some 0 ∧
    AddHost laptopDir "10.0.0.5" "printer" ClientSourceHostsFile = (laptopDir, false, none) :=
  ⟨by decide, C4_AddHost_shadowed laptopDir "10.0.0.5" "printer" ClientSourceHostsFile 0 (by decide)⟩

/-- C5: if a discovered-host entry exists for `a` and the rank of the new source
`s` is strictly lower than the rank of the stored entry, `AddHost(a, h, s)`
returns `added = false` without error and the container is unchanged: the
entry keeps its hostname, source and WHOIS info, and so does every other entry. -/
theorem C5_AddHost_lower_rank_rejected (clients : clientsContainer) (a h : String)
    (s : clientSource) (ch : ClientHost) (hent : mapGet clients.ipHost a = some ch)
    (hlt : s < ch.Source) :
    AddHost clients a h s = (clients, false, none) := by
  unfold AddHost
  cases hidx : mapGet clients.idIndex a with
  | some p => rfl
  | none => simp [hent, hlt]

theorem C5_AddHost_lower_rank_rejected_witness :
    (mapGet printerDir.ipHost "10.0.0.5"
        = some { Host := "printer", Source := ClientSourceARP, WhoisInfo := [] } ∧
      ClientSourceDHCP < ClientSourceARP) ∧
    AddHost printerDir "10.0.0.5" "new" ClientSourceDHCP = (printerDir, false, none) :=
  ⟨by decide,
    C5_AddHost_lower_rank_rejected printerDir "10.0.0.5" "new" ClientSourceDHCP
      { Host := "printer", Source := ClientSourceARP, WhoisInfo := [] } (by decide) (by decide)⟩

/-! ## Lookup: `Find` -/

/-- C6: if the query `q` parses as an address and the identifier index holds
`q` for the client at `p`, `Find(q)` returns that client with `found = true`,
whatever subnets other clients own and whatever the order of the two scans. -/
theorem C6_Find_exact_match_first (lib : NetLib) (clients : clientsContainer)
    (order1 order2 : List (String × Ptr)) (q : String) (A : IP) (p : Ptr)
    (hq : lib.ParseIP q = some A) (hidx : mapGet clients.idIndex q = some p) :
    Find lib clients order1 order2 q = (deref clients.heap p, true) := by
  simp [Find, hq, hidx]

theorem C6_Find_exact_match_first_witness :
    (goLib.ParseIP "192.168.1.20" = some (v4InV6Prefix ++ [192, 168, 1, 20]) ∧
      mapGet scenarioB.idIndex "192.168.1.20" = some 1) ∧
    Find goLib scenarioB [("laptop2", 1), ("subnet-kids", 0)] [("subnet-kids", 0), ("laptop2", 1)]
        "192.168.1.20"
      = (deref scenarioB.heap 1, true) ∧
    (deref scenarioB.heap 1).Name = "laptop2" :=
  ⟨by decide,
    C6_Find_exact_match_first goLib scenarioB _ _ "192.168.1.20"
      (v4InV6Prefix ++ [192, 168, 1, 20]) 1 (by decide) (by decide),
    by decide⟩

/-- C7, as the code has it: the exact lookup of `Find` uses the text of the
query.  If `q` parses as the address `A`, `q` is the canonical text of `A`, and
the identifier index holds that canonical text for the client at `p`, then
`Find(q)` returns that client with `found = true`. -/
theorem C7_Find_exact_by_query_text (lib : NetLib) (clients : clientsContainer)
    (order1 order2 : List (String × Ptr)) (q : String) (A : IP) (p : Ptr)
    (hq : lib.ParseIP q = some A) (hcanon : lib.ipString A = q)
    (hown : mapGet clients.idIndex (lib.ipString A) = some p) :
    Find lib clients order1 order2 q = (deref clients.heap p, true) := by
  rw [hcanon] at hown
  simp [Find, hq, hown]

theorem C7_Find_exact_by_query_text_witness :
    (goLib.ParseIP "10.0.0.5" = some (v4InV6Prefix ++ [10, 0, 0, 5]) ∧
      goLib.ipString (v4InV6Prefix ++ [10, 0, 0, 5]) = "10.0.0.5" ∧
      mapGet laptopDir.idIndex (goLib.ipString (v4InV6Prefix ++ [10, 0, 0, 5])) = some 0) ∧
    Find goLib laptopDir laptopDir.list laptopDir.list "10.0.0.5"
      = (deref laptopDir.heap 0, true) :=
  ⟨by decide,
    C7_Find_exact_by_query_text goLib laptopDir _ _ "10.0.0.5" (v4InV6Prefix ++ [10, 0, 0, 5]) 0
      (by decide) (by decide) (by decide)⟩

/-- C7, counterexample: "laptop" owns the address 10.0.0.5, the query
"::ffff:10.0.0.5" parses as that same address, and `Find` does not find the
client (the only visiting order of the one-client name index is used). -/
theorem C7_Find_other_text_of_owned_address_not_found :
    goLib.ParseIP "::ffff:10.0.0.5" = goLib.ParseIP "10.0.0.5" ∧
    (goLib.ParseIP "10.0.0.5").isSome = true ∧
    mapGet laptopDir.idIndex "10.0.0.5" = some 0 ∧
    laptopDir.list = [("laptop", 0)] ∧
    (deref laptopDir.heap 0).IDs = ["10.0.0.5"] ∧
    Find goLib laptopDir laptopDir.list laptopDir.list "::ffff:10.0.0.5" = (Client.zero, false) := by
  decide

/-! ## Registration: `Add` -/

theorem deref_append_new (heap : List Client) (c : Client) :
    deref (heap ++ [c]) heap.length = c := by
  simp [deref, List.getD_eq_getElem?_getD]

theorem deref_append_old (heap : List Client) (c : Client) (p : Ptr) (hp : p < heap.length) :
    deref (heap ++ [c]) p = deref heap p := by
  simp [deref, List.getD_eq_getElem?_getD, List.getElem?_append_left hp]

/-- C8, as the code has it: for every directory and every valid client `c`
whose name is not in the name index and none of whose identifiers, taken in
canonical text, is in the identifier index, `Add(c)` returns `created = true`
without error; the stored client has the name of `c` and the identifiers of
`c` with every address-type identifier in canonical text; and `Find` on the
canonical text of such an identifier, whenever that text is accepted by the
address parser, returns the stored client with `found = true`, whatever the
order of the scans. -/
theorem C8_Add_then_Find_canonical (lib : NetLib) (s : clientsContainer) (c : Client)
    (order1 order2 : List (String × Ptr))
    (hvalid : (Client.check lib c).2 = none) (hname : mapGet s.list c.Name = none)
    (hids : ∀ id ∈ c.IDs, mapGet s.idIndex (canonID lib id) = none) :
    (Add lib s c).2 = (true, none) ∧
    ∃ p, mapGet (Add lib s c).1.list c.Name = some p ∧
      (deref (Add lib s c).1.heap p).Name = c.Name ∧
      (deref (Add lib s c).1.heap p).IDs = c.IDs.map (canonID lib) ∧
      ∀ id ∈ c.IDs, ∀ A, lib.ParseIP id = some A →
        lib.ipString A ∈ (deref (Add lib s c).1.heap p).IDs ∧
        ((lib.ParseIP (lib.ipString A)).isSome = true →
          Find lib (Add lib s c).1 order1 order2 (lib.ipString A)
            = (deref (Add lib s c).1.heap p, true)) := by
  have hids1 : ∀ id ∈ c.IDs.map (canonID lib), mapGet s.idIndex id = none := by
    intro id hid
    obtain ⟨id0, h0, rfl⟩ := List.mem_map.mp hid
    exact hids id0 h0
  rw [Add_of_ok lib s c hvalid hname hids1]
  refine ⟨rfl, s.heap.length, ?_, ?_, ?_, ?_⟩
  · simp [addedState, mapGet_mapSet]
  · simp [addedState, deref_append_new]
  · simp [addedState, deref_append_new]
  · intro id hid A hA
    have hmem : lib.ipString A ∈ c.IDs.map (canonID lib) :=
      List.mem_map.mpr ⟨id, hid, by simp [canonID, hA]⟩
    refine ⟨by simpa [addedState, deref_append_new] using hmem, ?_⟩
    intro hparse
    obtain ⟨B, hB⟩ := Option.isSome_iff_exists.mp hparse
    have hidx : mapGet (addedState lib s c).idIndex (lib.ipString A) = some s.heap.length := by
      simp only [addedState, mapGet_indexIDs, hmem, if_true]
    simp [Find, hB, hidx]

theorem C8_Add_then_Find_canonical_witness :
    ((Client.check goLib scenarioAClient).2 = none ∧
      mapGet (clientsContainer.empty none).list scenarioAClient.Name = none ∧
      ∀ id ∈ scenarioAClient.IDs,
        mapGet (clientsContainer.empty none).idIndex (canonID goLib id) = none) ∧
    ((Add goLib (clientsContainer.empty none) scenarioAClient).2 = (true, none) ∧
      ∃ p, mapGet (Add goLib (clientsContainer.empty none) scenarioAClient).1.list
            scenarioAClient.Name = some p ∧
        (deref (Add goLib (clientsContainer.empty none) scenarioAClient).1.heap p).Name
          = scenarioAClient.Name ∧
        (deref (Add goLib (clientsContainer.empty none) scenarioAClient).1.heap p).IDs
          = scenarioAClient.IDs.map (canonID goLib) ∧
        ∀ id ∈ scenarioAClient.IDs, ∀ A, goLib.ParseIP id = some A →
          goLib.ipString A
            ∈ (deref (Add goLib (clientsContainer.empty none) scenarioAClient).1.heap p).IDs ∧
          ((goLib.ParseIP (goLib.ipString A)).isSome = true →
            Find goLib (Add goLib (clientsContainer.empty none) scenarioAClient).1
                [("laptop", 0)] [("laptop", 0)] (goLib.ipString A)
              = (deref (Add goLib (clientsContainer.empty none) scenarioAClient).1.heap p,
                  true))) :=
  ⟨by decide,
    C8_Add_then_Find_canonical goLib (clientsContainer.empty none) scenarioAClient
      [("laptop", 0)] [("laptop", 0)] (by decide) (by decide) (by decide)⟩

/-- Scenario A evaluated: `Add` of "laptop" with identifier 192.168.1.10 to the
empty directory returns `created = true`, and `Find("192.168.1.10")` then
returns the client "laptop". -/
theorem scenarioA_eval :
    (Add goLib (clientsContainer.empty none) scenarioAClient).2 = (true, none) ∧
    Find goLib (Add goLib (clientsContainer.empty none) scenarioAClient).1
        [("laptop", 0)] [("laptop", 0)] "192.168.1.10"
      = (scenarioAClient, true) := by
  decide

/-- C8, counterexample: "laptop" owns 10.0.0.5; the client "phone" with the
single identifier "::ffff:10.0.0.5" is valid, its name is not in the name
index and its identifier is not a key of the identifier index, yet `Add`
returns `created = false` with an identifier-conflict error, because `check`
has rewritten the identifier to "10.0.0.5" before the index is consulted. -/
theorem C8_Add_conflict_after_canonicalisation :
    (Client.check goLib (mkClient "phone" ["::ffff:10.0.0.5"])).2 = none ∧
    mapGet laptopDir.list "phone" = none ∧
    (∀ id ∈ (mkClient "phone" ["::ffff:10.0.0.5"]).IDs, mapGet laptopDir.idIndex id = none) ∧
    (Add goLib laptopDir (mkClient "phone" ["::ffff:10.0.0.5"])).2
      = (false, some "Another client uses the same ID (10.0.0.5): laptop") := by
  decide

/-- C10, as the code has it: after a successful `Add(c)` the discovered-host
map is the old one without the entries whose key is the canonical text of an
identifier of `c`, every other entry being unchanged and in place; and the
stored client keeps the WHOIS info supplied with `c` if that is non-empty, and
otherwise has the WHOIS info of the first identifier of `c`, in list order and
in canonical text, whose removed entry had non-empty WHOIS info, or none if
there is no such entry. -/
theorem C10_Add_removes_auto_clients (lib : NetLib) (s : clientsContainer) (c : Client)
    (hadd : (Add lib s c).2 = (true, none)) :
    (Add lib s c).1.ipHost
        = s.ipHost.filter (fun e => decide (e.1 ∉ c.IDs.map (canonID lib))) ∧
    (∀ k, mapGet (Add lib s c).1.ipHost k
        = if k ∈ c.IDs.map (canonID lib) then none else mapGet s.ipHost k) ∧
    ∃ p, mapGet (Add lib s c).1.list c.Name = some p ∧
      (deref (Add lib s c).1.heap p).WhoisInfo
        = if c.WhoisInfo.length ≠ 0 then c.WhoisInfo
          else firstWhois s.ipHost (c.IDs.map (canonID lib)) := by
  rcases Add_cases lib s c with ⟨_, hfalse⟩ | ⟨_, _, _, hform⟩
  · rw [hadd] at hfalse
    simp at hfalse
  · rw [hform]
    refine ⟨?_, ?_, s.heap.length, ?_, ?_⟩
    · simp only [addedState, removeAutoClients_ipHost]
    · intro k
      simp only [addedState, removeAutoClients_ipHost, mapGet_filter_keys]
    · simp [addedState, mapGet_mapSet]
    · simp only [addedState, deref_append_new, removeAutoClients_whois]

theorem C10_Add_removes_auto_clients_witness :
    (Add goLib printerDir (mkClient "laptop" ["10.0.0.5"])).2 = (true, none) ∧
    ((Add goLib printerDir (mkClient "laptop" ["10.0.0.5"])).1.ipHost
        = printerDir.ipHost.filter
            (fun e => decide (e.1 ∉ (mkClient "laptop" ["10.0.0.5"]).IDs.map (canonID goLib))) ∧
      (∀ k, mapGet (Add goLib printerDir (mkClient "laptop" ["10.0.0.5"])).1.ipHost k
          = if k ∈ (mkClient "laptop" ["10.0.0.5"]).IDs.map (canonID goLib) then none
            else mapGet printerDir.ipHost k) ∧
      ∃ p, mapGet (Add goLib printerDir (mkClient "laptop" ["10.0.0.5"])).1.list
            (mkClient "laptop" ["10.0.0.5"]).Name = some p ∧
        (deref (Add goLib printerDir (mkClient "laptop" ["10.0.0.5"])).1.heap p).WhoisInfo
          = if (mkClient "laptop" ["10.0.0.5"]).WhoisInfo.length ≠ 0
            then (mkClient "laptop" ["10.0.0.5"]).WhoisInfo
            else firstWhois printerDir.ipHost
              ((mkClient "laptop" ["10.0.0.5"]).IDs.map (canonID goLib))) :=
  ⟨by decide,
    C10_Add_removes_auto_clients goLib printerDir (mkClient "laptop" ["10.0.0.5"]) (by decide)⟩

/-- WHOIS migration evaluated: the host 10.0.0.5 is discovered from ARP and
receives WHOIS info; `Add` of "laptop" with identifier 10.0.0.5 and no WHOIS
info of its own removes the discovered host and stores the client with that
WHOIS info. -/
theorem whois_migration_eval :
    (Add goLib (SetWhoisInfo printerDir "10.0.0.5" [["orgname", "Example"]])
        (mkClient "laptop" ["10.0.0.5"])).2 = (true, none) ∧
    (Add goLib (SetWhoisInfo printerDir "10.0.0.5" [["orgname", "Example"]])
        (mkClient "laptop" ["10.0.0.5"])).1.ipHost = [] ∧
    (deref (Add goLib (SetWhoisInfo printerDir "10.0.0.5" [["orgname", "Example"]])
        (mkClient "laptop" ["10.0.0.5"])).1.heap 0).WhoisInfo = [["orgname", "Example"]] := by
  decide

/-- C10, counterexample: the discovered-host map has an entry under
"::ffff:10.0.0.5" and one under "10.0.0.5".  `Add` of a client whose single
identifier is "::ffff:10.0.0.5" succeeds; afterwards the entry under that
identifier is still there, and the entry under "10.0.0.5", which is not an
identifier of the client as supplied, is gone. -/
theorem C10_Add_leaves_entry_under_supplied_text :
    (Add goLib twoTextsDir (mkClient "laptop" ["::ffff:10.0.0.5"])).2 = (true, none) ∧
    "::ffff:10.0.0.5" ∈ (mkClient "laptop" ["::ffff:10.0.0.5"]).IDs ∧
    mapGet (Add goLib twoTextsDir (mkClient "laptop" ["::ffff:10.0.0.5"])).1.ipHost
        "::ffff:10.0.0.5"
      = some { Host := "mapped", Source := ClientSourceHostsFile, WhoisInfo := [] } ∧
    "10.0.0.5" ∉ (mkClient "laptop" ["::ffff:10.0.0.5"]).IDs ∧
    mapGet twoTextsDir.ipHost "10.0.0.5"
      = some { Host := "plain", Source := ClientSourceARP, WhoisInfo := [] } ∧
    mapGet (Add goLib twoTextsDir (mkClient "laptop" ["::ffff:10.0.0.5"])).1.ipHost "10.0.0.5"
      = none := by
  decide

/-! ## The uniqueness invariant -/

theorem deref_set (heap : List Client) (p q : Ptr) (c : Client) (hp : p < heap.length) :
    deref (heap.set p c) q = if q = p then c else deref heap q := by
  unfold deref
  rw [List.getD_eq_getElem?_getD, List.getD_eq_getElem?_getD, List.getElem?_set]
  by_cases h : p = q
  · subst h
    simp [hp]
  · have h1 : ¬ q = p := fun e => h e.symm
    simp [h, h1]

theorem WellFormed_empty (dhcp : Option (IP → Option HardwareAddr)) :
    WellFormed (clientsContainer.empty dhcp) := by
  unfold WellFormed
  simp [clientsContainer.empty, mapGet]

theorem WellFormed_Add (lib : NetLib) (s : clientsContainer) (c : Client) (h : WellFormed s) :
    WellFormed (Add lib s c).1 := by
  rcases Add_cases lib s c with ⟨hs, _⟩ | ⟨_, hname, hids, hform⟩
  · rw [hs]
    exact h
  · rw [hform]
    unfold WellFormed at h ⊢
    obtain ⟨hl, hi, hN, hX⟩ := h
    refine ⟨nodup_keys_mapSet _ _ _ hl, nodup_keys_indexIDs _ _ _ hi, ?_, ?_⟩
    · intro n p hp
      simp only [addedState, mapGet_mapSet] at hp ⊢
      by_cases hn : c.Name = n
      · simp only [hn, if_true, Option.some.injEq] at hp
        subst hp
        refine ⟨by simp, ?_⟩
        rw [deref_append_new]
        exact hn
      · simp only [hn, if_false] at hp
        obtain ⟨hlt, hnm⟩ := hN n p hp
        refine ⟨?_, ?_⟩
        · simp only [List.length_append, List.length_singleton]
          exact Nat.lt_succ_of_lt hlt
        · rw [deref_append_old _ _ _ hlt]
          exact hnm
    · intro id p
      simp only [addedState, mapGet_indexIDs, mapGet_mapSet]
      constructor
      · intro hget
        by_cases hmem : id ∈ c.IDs.map (canonID lib)
        · simp only [hmem, if_true, Option.some.injEq] at hget
          subst hget
          refine ⟨c.Name, by simp, ?_⟩
          rw [deref_append_new]
          exact hmem
        · simp only [hmem, if_false] at hget
          obtain ⟨n, hn, hid⟩ := (hX id p).mp hget
          have hne : ¬ c.Name = n := by
            intro e
            rw [← e, hname] at hn
            cases hn
          refine ⟨n, by simp [hne, hn], ?_⟩
          rw [deref_append_old _ _ _ (hN n p hn).1]
          exact hid
      · rintro ⟨n, hn, hid⟩
        by_cases hne : c.Name = n
        · simp only [hne, if_true, Option.some.injEq] at hn
          subst hn
          rw [deref_append_new] at hid
          have hmem : id ∈ c.IDs.map (canonID lib) := hid
          simp [hmem]
        · simp only [hne, if_false] at hn
          rw [deref_append_old _ _ _ (hN n p hn).1] at hid
          have hget := (hX id p).mpr ⟨n, hn, hid⟩
          have hmem : id ∉ c.IDs.map (canonID lib) := by
            intro hm
            rw [hids id hm] at hget
            cases hget
          simp [hmem, hget]

theorem Del_cases (s : clientsContainer) (name : String) :
    (Del s name = (s, false) ∧ mapGet s.list name = none) ∨
    ∃ p, mapGet s.list name = some p ∧
      Del s name =
        ({ s with list := mapDelete s.list name,
                  idIndex := unindexIDs s.idIndex (deref s.heap p).IDs }, true) := by
  cases h : mapGet s.list name with
  | none =>
    left
    simp [Del, h]
  | some p =>
    right
    exact ⟨p, rfl, by simp [Del, h]⟩

theorem WellFormed_Del (s : clientsContainer) (name : String) (h : WellFormed s) :
    WellFormed (Del s name).1 := by
  rcases Del_cases s name with ⟨hs, _⟩ | ⟨p, hp, hform⟩
  · rw [hs]
    exact h
  · rw [hform]
    unfold WellFormed at h ⊢
    obtain ⟨hl, hi, hN, hX⟩ := h
    refine ⟨nodup_keys_mapDelete _ _ hl, nodup_keys_unindexIDs _ _ hi, ?_, ?_⟩
    · intro n q hq
      simp only [mapGet_mapDelete] at hq
      by_cases hn : name = n
      · simp [hn] at hq
      · simp only [hn, if_false] at hq
        exact hN n q hq
    · intro id q
      simp only [mapGet_unindexIDs, mapGet_mapDelete]
      constructor
      · intro hget
        by_cases hmem : id ∈ (deref s.heap p).IDs
        · simp [hmem] at hget
        · simp only [hmem, if_false] at hget
          obtain ⟨n, hn, hid⟩ := (hX id q).mp hget
          have hne : ¬ name = n := by
            intro e
            subst e
            rw [hp] at hn
            cases hn
            exact hmem hid
          exact ⟨n, by simp [hne, hn], hid⟩
      · rintro ⟨n, hn, hid⟩
        by_cases hne : name = n
        · simp [hne] at hn
        · simp only [hne, if_false] at hn
          have hget := (hX id q).mpr ⟨n, hn, hid⟩
          have hmem : id ∉ (deref s.heap p).IDs := by
            intro hm
            have hget2 := (hX id p).mpr ⟨name, hp, hm⟩
            rw [hget] at hget2
            have hqp : q = p := Option.some.inj hget2
            rw [hqp] at hn
            have := (hN n p hn).2
            rw [(hN name p hp).2] at this
            exact hne this
          simp [hmem, hget]

theorem WellFormed_Update (lib : NetLib) (s : clientsContainer) (name : String) (c : Client)
    (h : WellFormed s) : WellFormed (Update lib s name c).1 := by
  rcases Update_cases lib s name c with ⟨hs, _⟩ | ⟨old, _, hold, hname, hconf, hform⟩
  · rw [hs]
    exact h
  · rw [hform]
    unfold WellFormed at h ⊢
    obtain ⟨hl, hi, hN, hX⟩ := h
    obtain ⟨holdlt, holdname⟩ := hN name old hold
    have hinj : ∀ n, mapGet s.list n = some old → n = name := by
      intro n hn
      rw [← (hN n old hn).2, holdname]
    have hlist : ∀ n, mapGet (updatedState lib s c old).list n
        = if c.Name = n then some old else if name = n then none else mapGet s.list n := by
      intro n
      simp only [updatedState]
      by_cases hnm : (deref s.heap old).Name = c.Name
      · rw [if_neg (not_not.mpr hnm)]
        have hcn : c.Name = name := by rw [← hnm, holdname]
        by_cases h1 : c.Name = n
        · rw [if_pos h1, ← h1, hcn, hold]
        · have h2 : ¬ name = n := by rw [← hcn]; exact h1
          rw [if_neg h1, if_neg h2]
      · rw [if_pos hnm, mapGet_mapSet, mapGet_mapDelete, holdname]
    have hidx : ∀ id, mapGet (updatedState lib s c old).idIndex id
        = if id ∈ c.IDs.map (canonID lib) then some old
          else if id ∈ (deref s.heap old).IDs then none else mapGet s.idIndex id := by
      intro id
      simp only [updatedState]
      by_cases heq : arraysEqual (deref s.heap old).IDs (c.IDs.map (canonID lib)) = true
      · rw [if_pos heq]
        have he := (arraysEqual_iff _ _).mp heq
        rw [← he]
        by_cases hmem : id ∈ (deref s.heap old).IDs
        · rw [if_pos hmem]
          exact (hX id old).mpr ⟨name, hold, hmem⟩
        · rw [if_neg hmem, if_neg hmem]
      · rw [if_neg heq, mapGet_indexIDs, mapGet_unindexIDs]
    have hderef : ∀ q, deref (updatedState lib s c old).heap q
        = if q = old then { c with IDs := c.IDs.map (canonID lib) } else deref s.heap q := by
      intro q
      simp only [updatedState]
      exact deref_set s.heap old q _ holdlt
    have hlen : (updatedState lib s c old).heap.length = s.heap.length := by
      simp [updatedState]
    have hfree : ∀ id ∈ c.IDs.map (canonID lib), ∀ q, mapGet s.idIndex id = some q → q = old := by
      intro id hid q hq
      rcases hconf with heq | hfr
      · have he := (arraysEqual_iff _ _).mp heq
        rw [← he] at hid
        have := (hX id old).mpr ⟨name, hold, hid⟩
        rw [hq] at this
        exact Option.some.inj this
      · rcases hfr id hid with h0 | h0
        · rw [hq] at h0
          cases h0
        · rw [hq] at h0
          exact Option.some.inj h0
    refine ⟨?_, ?_, ?_, ?_⟩
    · simp only [updatedState]
      by_cases hnm : (deref s.heap old).Name = c.Name
      · rw [if_neg (not_not.mpr hnm)]
        exact hl
      · rw [if_pos hnm]
        exact nodup_keys_mapSet _ _ _ (nodup_keys_mapDelete _ _ hl)
    · simp only [updatedState]
      by_cases heq : arraysEqual (deref s.heap old).IDs (c.IDs.map (canonID lib)) = true
      · rw [if_pos heq]
        exact hi
      · rw [if_neg heq]
        exact nodup_keys_indexIDs _ _ _ (nodup_keys_unindexIDs _ _ hi)
    · intro n q hq
      rw [hlist] at hq
      rw [hlen, hderef]
      by_cases h1 : c.Name = n
      · rw [if_pos h1] at hq
        have := Option.some.inj hq
        subst this
        exact ⟨holdlt, by simpa using h1⟩
      · rw [if_neg h1] at hq
        by_cases h2 : name = n
        · rw [if_pos h2] at hq
          cases hq
        · rw [if_neg h2] at hq
          have hqo : ¬ q = old := by
            intro e
            subst e
            exact h2 (hinj n hq).symm
          rw [if_neg hqo]
          exact hN n q hq
    · intro id q
      rw [hidx]
      constructor
      · intro hget
        by_cases hmem : id ∈ c.IDs.map (canonID lib)
        · rw [if_pos hmem] at hget
          have := Option.some.inj hget
          subst this
          refine ⟨c.Name, ?_, ?_⟩
          · rw [hlist, if_pos rfl]
          · rw [hderef, if_pos rfl]
            exact hmem
        · rw [if_neg hmem] at hget
          by_cases hmo : id ∈ (deref s.heap old).IDs
          · rw [if_pos hmo] at hget
            cases hget
          · rw [if_neg hmo] at hget
            obtain ⟨n, hn, hid⟩ := (hX id q).mp hget
            have hqo : ¬ q = old := by
              intro e
              subst e
              exact hmo hid
            have h2 : ¬ name = n := by
              intro e
              subst e
              rw [hold] at hn
              exact hqo (Option.some.inj hn).symm
            have h1 : ¬ c.Name = n := by
              intro e
              rcases hname with hh | hh
              · rw [holdname] at hh
                exact h2 (hh.trans e)
              · rw [e, hn] at hh
                cases hh
            refine ⟨n, ?_, ?_⟩
            · rw [hlist, if_neg h1, if_neg h2]
              exact hn
            · rw [hderef, if_neg hqo]
              exact hid
      · rintro ⟨n, hn, hid⟩
        rw [hlist] at hn
        rw [hderef] at hid
        by_cases h1 : c.Name = n
        · rw [if_pos h1] at hn
          have := Option.some.inj hn
          subst this
          rw [if_pos rfl] at hid
          have hmem : id ∈ c.IDs.map (canonID lib) := hid
          rw [if_pos hmem]
        · rw [if_neg h1] at hn
          by_cases h2 : name = n
          · rw [if_pos h2] at hn
            cases hn
          · rw [if_neg h2] at hn
            have hqo : ¬ q = old := by
              intro e
              subst e
              exact h2 (hinj n hn).symm
            rw [if_neg hqo] at hid
            have hget := (hX id q).mpr ⟨n, hn, hid⟩
            have hmem : id ∉ c.IDs.map (canonID lib) := by
              intro hm
              exact hqo (hfree id hm q hget)
            have hmo : id ∉ (deref s.heap old).IDs := by
              intro hm
              have := (hX id old).mpr ⟨name, hold, hm⟩
              rw [hget] at this
              exact hqo (Option.some.inj this)
            rw [if_neg hmem, if_neg hmo]
            exact hget

theorem AddHost_frame (s : clientsContainer) (ip host : String) (source : clientSource) :
    (AddHost s ip host source).1.heap = s.heap ∧ (AddHost s ip host source).1.list = s.list ∧
      (AddHost s ip host source).1.idIndex = s.idIndex := by
  unfold AddHost
  cases mapGet s.idIndex ip with
  | some p => exact ⟨rfl, rfl, rfl⟩
  | none =>
    cases mapGet s.ipHost ip with
    | none => exact ⟨rfl, rfl, rfl⟩
    | some ch =>
      by_cases h : ch.Source > source
      · simp [h]
      · simp [h]

theorem WellFormed_AddHost (s : clientsContainer) (ip host : String) (source : clientSource)
    (h : WellFormed s) : WellFormed (AddHost s ip host source).1 := by
  obtain ⟨h1, h2, h3⟩ := AddHost_frame s ip host source
  unfold WellFormed at h ⊢
  rw [h1, h2, h3]
  exact h

theorem WellFormed_SetWhoisInfo (s : clientsContainer) (ip : String)
    (info : List (List String)) (h : WellFormed s) : WellFormed (SetWhoisInfo s ip info) := by
  unfold SetWhoisInfo
  cases hidx : mapGet s.idIndex ip with
  | none =>
    cases mapGet s.ipHost ip with
    | none => exact h
    | some ch => exact h
  | some c =>
    unfold WellFormed at h ⊢
    obtain ⟨hl, hi, hN, hX⟩ := h
    obtain ⟨n0, hn0, _⟩ := (hX ip c).mp hidx
    have hc : c < s.heap.length := (hN n0 c hn0).1
    have hname : ∀ q, (deref (s.heap.set c { deref s.heap c with WhoisInfo := info }) q).Name
        = (deref s.heap q).Name := by
      intro q
      rw [deref_set _ _ _ _ hc]
      by_cases hq : q = c
      · rw [if_pos hq, hq]
      · rw [if_neg hq]
    have hids : ∀ q, (deref (s.heap.set c { deref s.heap c with WhoisInfo := info }) q).IDs
        = (deref s.heap q).IDs := by
      intro q
      rw [deref_set _ _ _ _ hc]
      by_cases hq : q = c
      · rw [if_pos hq, hq]
      · rw [if_neg hq]
    refine ⟨hl, hi, ?_, ?_⟩
    · intro n p hp
      simp only [List.length_set, hname]
      exact hN n p hp
    · intro id p
      simp only [hids]
      exact hX id p

theorem WellFormed_step (lib : NetLib) (s : clientsContainer) (op : Op) (h : WellFormed s) :
    WellFormed (step lib s op) := by
  cases op with
  | add c => exact WellFormed_Add lib s c h
  | update name c => exact WellFormed_Update lib s name c h
  | del name => exact WellFormed_Del s name h
  | addHost ip host source => exact WellFormed_AddHost s ip host source h
  | setWhoisInfo ip info => exact WellFormed_SetWhoisInfo s ip info h

theorem WellFormed_run (lib : NetLib) (ops : List Op) (s : clientsContainer)
    (h : WellFormed s) : WellFormed (run lib s ops) := by
  unfold run
  induction ops generalizing s with
  | nil => exact h
  | cons op rest ih =>
    rw [List.foldl_cons]
    exact ih _ (WellFormed_step lib s op h)

theorem Uniqueness_of_WellFormed (s : clientsContainer) (h : WellFormed s) : Uniqueness s := by
  unfold WellFormed at h
  unfold Uniqueness
  obtain ⟨hl, hi, hN, hX⟩ := h
  refine ⟨hl, ?_, ?_, hi, ?_⟩
  · intro n p hmem
    exact (hN n p ((mem_iff_mapGet _ hl n p).mp hmem)).2
  · intro n1 p1 n2 p2 h1 h2 hne
    have g1 := (mem_iff_mapGet _ hl n1 p1).mp h1
    have g2 := (mem_iff_mapGet _ hl n2 p2).mp h2
    have hp : p1 ≠ p2 := by
      intro e
      subst e
      exact hne (by rw [← (hN n1 p1 g1).2, (hN n2 p1 g2).2])
    refine ⟨hp, ?_⟩
    intro id hid1 hid2
    have e1 := (hX id p1).mpr ⟨n1, g1, hid1⟩
    have e2 := (hX id p2).mpr ⟨n2, g2, hid2⟩
    rw [e1] at e2
    exact hp (Option.some.inj e2)
  · intro id p
    rw [mem_iff_mapGet _ hi id p, hX id p]
    constructor
    · rintro ⟨n, hn, hid⟩
      exact ⟨n, (mem_iff_mapGet _ hl n p).mpr hn, hid⟩
    · rintro ⟨n, hn, hid⟩
      exact ⟨n, (mem_iff_mapGet _ hl n p).mp hn, hid⟩

/-- C3 (uniqueness invariant): in every state reached from an empty directory
by a sequence of calls (of `Add`, `Update` and `Del`, and also of `AddHost` and
`SetWhoisInfo`), the names of the name index are pairwise distinct and every
client is stored under its own name, two distinct clients share no identifier,
and the identifier index consists exactly of the pairs of a stored identifier
and the client that owns it, one entry per identifier. -/
theorem C3_uniqueness_invariant (lib : NetLib) (dhcp : Option (IP → Option HardwareAddr))
    (ops : List Op) : Uniqueness (run lib (clientsContainer.empty dhcp) ops) :=
  Uniqueness_of_WellFormed _ (WellFormed_run lib ops _ (WellFormed_empty dhcp))

/-! ## The shadowing invariant -/

theorem Shadowing_step (lib : NetLib) (s : clientsContainer) (op : Op)
    (hno : op.isUpdate = false) (h : Shadowing s) : Shadowing (step lib s op) := by
  unfold Shadowing at h ⊢
  cases op with
  | update name c => simp [Op.isUpdate] at hno
  | add c =>
    simp only [step]
    rcases Add_cases lib s c with ⟨hs, _⟩ | ⟨_, _, _, hform⟩
    · rw [hs]
      exact h
    · rw [hform]
      intro k p hk
      simp only [addedState, mapGet_indexIDs, removeAutoClients_ipHost, mapGet_filter_keys]
        at hk ⊢
      by_cases hmem : k ∈ c.IDs.map (canonID lib)
      · rw [if_pos hmem]
      · rw [if_neg hmem] at hk ⊢
        exact h k p hk
  | del name =>
    simp only [step]
    rcases Del_cases s name with ⟨hs, _⟩ | ⟨q, _, hform⟩
    · rw [hs]
      exact h
    · rw [hform]
      intro k p hk
      simp only [mapGet_unindexIDs] at hk
      by_cases hmem : k ∈ (deref s.heap q).IDs
      · rw [if_pos hmem] at hk
        cases hk
      · rw [if_neg hmem] at hk
        exact h k p hk
  | addHost ip host source =>
    simp only [step, AddHost]
    cases hidx : mapGet s.idIndex ip with
    | some q => exact h
    | none =>
      have hne : ∀ k p, mapGet s.idIndex k = some p → ¬ ip = k := by
        intro k p hk e
        rw [← e, hidx] at hk
        cases hk
      cases mapGet s.ipHost ip with
      | none =>
        intro k p hk
        simp only [mapGet_mapSet, if_neg (hne k p hk)]
        exact h k p hk
      | some ch =>
        by_cases hsrc : ch.Source > source
        · simp only [hsrc, if_true]
          exact h
        · simp only [hsrc, if_false]
          intro k p hk
          simp only [mapGet_mapSet, if_neg (hne k p hk)]
          exact h k p hk
  | setWhoisInfo ip info =>
    simp only [step, SetWhoisInfo]
    cases hidx : mapGet s.idIndex ip with
    | some q => exact h
    | none =>
      have hne : ∀ k p, mapGet s.idIndex k = some p → ¬ ip = k := by
        intro k p hk e
        rw [← e, hidx] at hk
        cases hk
      cases mapGet s.ipHost ip with
      | none =>
        intro k p hk
        simp only [mapGet_mapSet, if_neg (hne k p hk)]
        exact h k p hk
      | some ch =>
        intro k p hk
        simp only [mapGet_mapSet, if_neg (hne k p hk)]
        exact h k p hk

/-- The shadowing invariant is kept by every sequence of calls that contains
no call of `Update`. -/
theorem Shadowing_run_without_Update (lib : NetLib) (ops : List Op) (s : clientsContainer)
    (hno : ∀ op ∈ ops, op.isUpdate = false) (h : Shadowing s) : Shadowing (run lib s ops) := by
  unfold run
  induction ops generalizing s with
  | nil => exact h
  | cons op rest ih =>
    rw [List.foldl_cons]
    exact ih _ (fun o ho => hno o (List.mem_cons_of_mem _ ho))
      (Shadowing_step lib s op (hno op (List.mem_cons_self _ _)) h)

/-- C2: evaluation at the failing sequence.  After `AddHost("10.0.0.5",
"printer", ARP)`, `Add` of "laptop" with identifier 10.0.0.1 and `Update` of
"laptop" to identifier 10.0.0.5, every call having succeeded, the key
"10.0.0.5" is in the identifier index and the discovered-host map still has an
entry under it: `Update` does not remove the auto-clients of the identifiers it
indexes, as `Add` does. -/
theorem C2_Update_breaks_shadowing :
    (Update goLib
        (run goLib (clientsContainer.empty none)
          [Op.addHost "10.0.0.5" "printer" ClientSourceARP,
           Op.add (mkClient "laptop" ["10.0.0.1"])])
        "laptop" (mkClient "laptop" ["10.0.0.5"])).2 = none ∧
    mapGet shadowedDir.idIndex "10.0.0.5" = some 0 ∧
    mapGet shadowedDir.ipHost "10.0.0.5"
      = some { Host := "printer", Source := ClientSourceARP, WhoisInfo := [] } ∧
    ¬ Shadowing shadowedDir := by
  refine ⟨by decide, by decide, by decide, ?_⟩
  intro h
  have h1 := h "10.0.0.5" 0 (by decide)
  exact absurd h1 (by decide)

/-! ## Snapshot: `addFromConfig` and `WriteDiskConfig` -/

theorem WriteDiskConfig_eq (s : clientsContainer) (order : List (String × Ptr))
    (objects : List clientObject) :
    WriteDiskConfig s order objects
      = objects ++ order.map (fun e => (deref s.heap e.2).toObject) := by
  unfold WriteDiskConfig
  induction order generalizing objects with
  | nil => simp
  | cons e rest ih =>
    rw [List.foldl_cons, ih]
    simp

theorem toObject_toClient (cy : clientObject) (ids : List String) (w : List (List String)) :
    ({ cy.toClient with IDs := ids, WhoisInfo := w } : Client).toObject
      = { cy with IDs := ids } := by
  cases cy
  simp [clientObject.toClient, Client.toObject]

theorem addFromConfig_cons (lib : NetLib) (s : clientsContainer) (cy : clientObject)
    (rest : List clientObject) :
    addFromConfig lib s (cy :: rest) = addFromConfig lib (Add lib s cy.toClient).1 rest := by
  simp [addFromConfig]

theorem addFromConfig_snapshot (lib : NetLib) (L : List clientObject) (s : clientsContainer)
    (hwf : ∀ e ∈ s.list, e.2 < s.heap.length)
    (hvalid : ∀ cy ∈ L, (Client.check lib cy.toClient).2 = none)
    (hnames : (L.map clientObject.Name).Nodup)
    (hfreshN : ∀ cy ∈ L, mapGet s.list cy.Name = none)
    (hids : L.Pairwise
      (fun a b => ∀ id ∈ a.IDs.map (canonID lib), id ∉ b.IDs.map (canonID lib)))
    (hfreshI : ∀ cy ∈ L, ∀ id ∈ cy.IDs.map (canonID lib), mapGet s.idIndex id = none) :
    (addFromConfig lib s L).list.map (fun e => (deref (addFromConfig lib s L).heap e.2).toObject)
      = s.list.map (fun e => (deref s.heap e.2).toObject) ++ L.map (canonObject lib) := by
  induction L generalizing s with
  | nil => simp [addFromConfig]
  | cons cy rest ih =>
    have hv := hvalid cy (List.mem_cons_self _ _)
    have hn := hfreshN cy (List.mem_cons_self _ _)
    have hi := hfreshI cy (List.mem_cons_self _ _)
    have hadd := Add_of_ok lib s cy.toClient hv hn hi
    simp only [List.map_cons, List.nodup_cons] at hnames
    obtain ⟨hnotin, hnames1⟩ := hnames
    rw [List.pairwise_cons] at hids
    obtain ⟨hdisj, hids1⟩ := hids
    have hlist : (addedState lib s cy.toClient).list = s.list ++ [(cy.Name, s.heap.length)] := by
      simp only [addedState]
      exact mapSet_of_absent _ _ _ hn
    rw [addFromConfig_cons, hadd]
    rw [ih (addedState lib s cy.toClient)]
    · rw [hlist]
      simp only [List.map_append, List.map_cons, List.map_nil, List.append_assoc,
        List.singleton_append]
      congr 1
      · apply List.map_congr_left
        intro e he
        simp only [addedState]
        rw [deref_append_old _ _ _ (hwf e he)]
      · congr 1
        simp only [addedState]
        rw [deref_append_new]
        exact toObject_toClient cy _ _
    · intro e he
      rw [hlist] at he
      simp only [addedState, List.length_append, List.length_singleton]
      rcases List.mem_append.mp he with h1 | h1
      · exact Nat.lt_succ_of_lt (hwf e h1)
      · simp only [List.mem_singleton] at h1
        rw [h1]
        exact Nat.lt_succ_self _
    · intro c hc
      exact hvalid c (List.mem_cons_of_mem _ hc)
    · exact hnames1
    · intro c hc
      simp only [addedState, mapGet_mapSet]
      have hne : ¬ cy.toClient.Name = c.Name := by
        intro e
        apply hnotin
        rw [List.mem_map]
        exact ⟨c, hc, e.symm⟩
      rw [if_neg hne]
      exact hfreshN c (List.mem_cons_of_mem _ hc)
    · exact hids1
    · intro c hc id hid
      simp only [addedState, mapGet_indexIDs]
      have hne : id ∉ cy.toClient.IDs.map (canonID lib) := by
        intro hm
        exact hdisj c hc id hm hid
      rw [if_neg hne]
      exact hfreshI c (List.mem_cons_of_mem _ hc) id hid

/-- C9, as the code has it: let `L` be a list of client definitions that are
each valid, with pairwise distinct names and with identifiers that are pairwise
disjoint in canonical text.  The snapshot of the directory initialised from `L`
is, for whatever order in which `WriteDiskConfig` visits the name index, a
permutation of `L` with the identifiers in canonical text: every client once,
with its name, its flags, and its identifier (in canonical text),
blocked-service and upstream lists element by element in their original order. -/
theorem C9_snapshot_is_permutation (lib : NetLib) (dhcp : Option (IP → Option HardwareAddr))
    (L : List clientObject) (order : List (String × Ptr))
    (hvalid : ∀ cy ∈ L, (Client.check lib cy.toClient).2 = none)
    (hnames : (L.map clientObject.Name).Nodup)
    (hids : L.Pairwise
      (fun a b => ∀ id ∈ a.IDs.map (canonID lib), id ∉ b.IDs.map (canonID lib)))
    (horder : order.Perm (addFromConfig lib (clientsContainer.empty dhcp) L).list) :
    (WriteDiskConfig (addFromConfig lib (clientsContainer.empty dhcp) L) order []).Perm
      (L.map (canonObject lib)) := by
  have hsnap := addFromConfig_snapshot lib L (clientsContainer.empty dhcp)
    (by simp [clientsContainer.empty]) hvalid hnames
    (by simp [clientsContainer.empty, mapGet]) hids
    (by simp [clientsContainer.empty, mapGet])
  simp only [clientsContainer.empty, List.map_nil, List.nil_append] at hsnap
  rw [WriteDiskConfig_eq, List.nil_append, ← hsnap]
  exact List.Perm.map _ horder

theorem C9_snapshot_is_permutation_witness :
    ((∀ cy ∈ twoClients, (Client.check goLib cy.toClient).2 = none) ∧
      (twoClients.map clientObject.Name).Nodup ∧
      twoClients.Pairwise
        (fun a b => ∀ id ∈ a.IDs.map (canonID goLib), id ∉ b.IDs.map (canonID goLib)) ∧
      List.Perm [("laptop", 1), ("kids", 0)]
        (addFromConfig goLib (clientsContainer.empty none) twoClients).list) ∧
    (WriteDiskConfig (addFromConfig goLib (clientsContainer.empty none) twoClients)
        [("laptop", 1), ("kids", 0)] []).Perm (twoClients.map (canonObject goLib)) :=
  ⟨⟨by decide, by decide, by decide, List.Perm.swap _ _ _⟩,
    C9_snapshot_is_permutation goLib none twoClients [("laptop", 1), ("kids", 0)]
      (by decide) (by decide) (by decide) (List.Perm.swap _ _ _)⟩

/-- C9, counterexample.  First, for two valid clients with distinct names and
disjoint identifiers, visiting the name index in the order "laptop", "kids"
gives a snapshot that is not the configuration list.  Second, for one valid
client whose identifier is the address text "::ffff:10.0.0.5", the snapshot
holds the identifier "10.0.0.5" and is not the configuration list either. -/
theorem C9_snapshot_differs_from_configuration :
    ((∀ cy ∈ twoClients, (Client.check goLib cy.toClient).2 = none) ∧
      (twoClients.map clientObject.Name).Nodup ∧
      twoClients.Pairwise (fun a b => ∀ id ∈ a.IDs, id ∉ b.IDs) ∧
      (addFromConfig goLib (clientsContainer.empty none) twoClients).list
        = [("kids", 0), ("laptop", 1)] ∧
      WriteDiskConfig (addFromConfig goLib (clientsContainer.empty none) twoClients)
          [("laptop", 1), ("kids", 0)] []
        = [mkObject "laptop" ["10.0.0.2"], mkObject "kids" ["10.0.0.1"]] ∧
      WriteDiskConfig (addFromConfig goLib (clientsContainer.empty none) twoClients)
          [("laptop", 1), ("kids", 0)] [] ≠ twoClients) ∧
    ((∀ cy ∈ mappedClient, (Client.check goLib cy.toClient).2 = none) ∧
      (addFromConfig goLib (clientsContainer.empty none) mappedClient).list = [("phone", 0)] ∧
      WriteDiskConfig (addFromConfig goLib (clientsContainer.empty none) mappedClient)
          [("phone", 0)] []
        = [mkObject "phone" ["10.0.0.5"]] ∧
      WriteDiskConfig (addFromConfig goLib (clientsContainer.empty none) mappedClient)
          [("phone", 0)] [] ≠ mappedClient) := by
  decide

/-! ## Outcome of `Add` -/

theorem checkIDs_none_iff (lib : NetLib) (ids : List String) :
    (checkIDs lib ids).2 = none ↔ ∀ id ∈ ids, classifiable lib id = true := by
  induction ids with
  | nil => simp [checkIDs]
  | cons id rest ih =>
    cases hp : lib.ParseIP id with
    | some ip => simp [checkIDs, hp, classifiable, ih]
    | none =>
      by_cases hc : (lib.ParseCIDR id).isSome
      · simp [checkIDs, hp, hc, classifiable, ih]
      · by_cases hm : (lib.ParseMAC id).isSome
        · simp [checkIDs, hp, hc, hm, classifiable, ih]
        · simp [checkIDs, hp, hc, hm, classifiable]

theorem checkIDs_error (lib : NetLib) (ids : List String)
    (h : ¬ ∀ id ∈ ids, classifiable lib id = true) :
    ∃ id ∈ ids, classifiable lib id = false ∧
      (checkIDs lib ids).2 = some ("Invalid ID: " ++ id) := by
  induction ids with
  | nil => simp at h
  | cons id rest ih =>
    by_cases hid : classifiable lib id = true
    · have hrest : ¬ ∀ id ∈ rest, classifiable lib id = true := by
        intro hall
        apply h
        intro x hx
        rcases List.mem_cons.mp hx with e | e
        · rw [e]
          exact hid
        · exact hall x e
      obtain ⟨x, hx, hxc, hxe⟩ := ih hrest
      refine ⟨x, List.mem_cons_of_mem _ hx, hxc, ?_⟩
      cases hp : lib.ParseIP id with
      | some ip => simp [checkIDs, hp, hxe]
      | none =>
        by_cases hc : (lib.ParseCIDR id).isSome
        · simp [checkIDs, hp, hc, hxe]
        · by_cases hm : (lib.ParseMAC id).isSome
          · simp [checkIDs, hp, hc, hm, hxe]
          · simp [classifiable, hp, hc, hm] at hid
    · have hfalse : classifiable lib id = false := by simpa using hid
      refine ⟨id, List.mem_cons_self _ _, hfalse, ?_⟩
      simp only [classifiable, Bool.or_eq_false_iff] at hfalse
      obtain ⟨⟨h1, h2⟩, h3⟩ := hfalse
      have hp : lib.ParseIP id = none := by simpa using h1
      simp [checkIDs, hp, h2, h3]

theorem check_valid_iff (lib : NetLib) (c : Client) :
    (Client.check lib c).2 = none ↔ validClient lib c := by
  unfold validClient Client.check
  by_cases h1 : c.Name.length = 0
  · simp [h1]
  · by_cases h2 : c.IDs.length = 0
    · simp [h1, h2]
    · simp only [h1, h2, if_false, ne_eq, not_false_eq_true, true_and]
      rw [← checkIDs_none_iff]
      cases hids : checkIDs lib c.IDs with
      | mk ids e =>
        cases e with
        | some e => simp
        | none =>
          by_cases h3 : c.Upstreams.length = 0
          · simp [h3]
          · cases hv : lib.ValidateUpstreams c.Upstreams with
            | some err => simp [h3, hv]
            | none => simp [h3, hv]

theorem Add_check_error (lib : NetLib) (s : clientsContainer) (c : Client) (e : String)
    (h : (Client.check lib c).2 = some e) : Add lib s c = (s, false, some e) := by
  have hc : Client.check lib c = ((Client.check lib c).1, some e) := Prod.ext rfl h
  unfold Add
  rw [hc]

theorem idConflict_some (idIndex : List (String × Ptr)) (skip : Option Ptr) (ids : List String)
    (id : String) (p : Ptr) (h : idConflict idIndex skip ids = some (id, p)) :
    id ∈ ids ∧ mapGet idIndex id = some p ∧ skip ≠ some p := by
  induction ids with
  | nil => simp [idConflict] at h
  | cons x rest ih =>
    cases hx : mapGet idIndex x with
    | none =>
      simp only [idConflict, hx] at h
      obtain ⟨h1, h2⟩ := ih h
      exact ⟨List.mem_cons_of_mem _ h1, h2⟩
    | some c2 =>
      simp only [idConflict, hx] at h
      by_cases hs : skip = some c2
      · rw [if_pos hs] at h
        obtain ⟨h1, h2⟩ := ih h
        exact ⟨List.mem_cons_of_mem _ h1, h2⟩
      · rw [if_neg hs] at h
        simp only [Option.some.injEq, Prod.mk.injEq] at h
        obtain ⟨e1, e2⟩ := h
        subst e1
        subst e2
        exact ⟨List.mem_cons_self _ _, hx, hs⟩

theorem Add_valid_name_taken (lib : NetLib) (s : clientsContainer) (c : Client)
    (hv : (Client.check lib c).2 = none) (p : Ptr) (hn : mapGet s.list c.Name = some p) :
    Add lib s c = (s, false, none) := by
  obtain ⟨h1, _⟩ := check_ok lib c hv
  have hc : Client.check lib c = ({ c with IDs := c.IDs.map (canonID lib) }, none) :=
    Prod.ext h1 hv
  simp [Add, hc, hn]

theorem Add_valid_conflict (lib : NetLib) (s : clientsContainer) (c : Client)
    (hv : (Client.check lib c).2 = none) (hn : mapGet s.list c.Name = none)
    (hex : ∃ id ∈ c.IDs.map (canonID lib), (mapGet s.idIndex id).isSome = true) :
    ∃ id ∈ c.IDs.map (canonID lib), ∃ p, mapGet s.idIndex id = some p ∧
      Add lib s c = (s, false,
        some ("Another client uses the same ID (" ++ id ++ "): " ++ (deref s.heap p).Name)) := by
  obtain ⟨h1, _⟩ := check_ok lib c hv
  have hc : Client.check lib c = ({ c with IDs := c.IDs.map (canonID lib) }, none) :=
    Prod.ext h1 hv
  cases hconf : idConflict s.idIndex none (c.IDs.map (canonID lib)) with
  | none =>
    obtain ⟨id, hid, hsome⟩ := hex
    rw [(idConflict_none_iff _ _).mp hconf id hid] at hsome
    simp at hsome
  | some r =>
    obtain ⟨id, p⟩ := r
    obtain ⟨hmem, hget, _⟩ := idConflict_some _ _ _ _ _ hconf
    refine ⟨id, hmem, p, hget, ?_⟩
    simp [Add, hc, hn, hconf]

/-- C11, as the code has it: the outcome of `Add`.  An empty name gives the
name-validation error
(checked first); a non-empty name with an empty identifier list gives the
identifier-validation error; an identifier that parses neither as an address
nor as a subnet nor as a hardware address gives an error that quotes it; a
non-empty upstream list that the validator rejects gives an error; in short,
every client that is not valid gives an error with `created = false`.  For a
valid client, `Add` returns `(created = false, no error)` exactly when the name
is already in the name index; otherwise it returns an error, which names the
owning client, exactly when some identifier of `c` (as `check` leaves it in
`c.IDs`: an address in canonical text) is already in the identifier index; and
otherwise it returns `(created = true, no error)`. -/
theorem C11_Add_outcome (lib : NetLib) (s : clientsContainer) (c : Client) :
    (c.Name.length = 0 → Add lib s c = (s, false, some "Invalid Name")) ∧
    (c.Name.length ≠ 0 → c.IDs.length = 0 → Add lib s c = (s, false, some "ID required")) ∧
    (c.Name.length ≠ 0 → (¬ ∀ id ∈ c.IDs, classifiable lib id = true) →
      ∃ id ∈ c.IDs, classifiable lib id = false ∧
        Add lib s c = (s, false, some ("Invalid ID: " ++ id))) ∧
    (c.Name.length ≠ 0 → c.IDs.length ≠ 0 → (∀ id ∈ c.IDs, classifiable lib id = true) →
      c.Upstreams.length ≠ 0 → ∀ err, lib.ValidateUpstreams c.Upstreams = some err →
        Add lib s c = (s, false, some ("Invalid upstream servers: " ++ err))) ∧
    (¬ validClient lib c → (Add lib s c).2.1 = false ∧ (Add lib s c).2.2 ≠ none) ∧
    (validClient lib c →
      ((Add lib s c).2 = (false, none) ↔ (mapGet s.list c.Name).isSome = true) ∧
      (mapGet s.list c.Name = none →
        (((Add lib s c).2.1 = false ∧ (Add lib s c).2.2 ≠ none) ↔
          ∃ id ∈ (Client.check lib c).1.IDs, (mapGet s.idIndex id).isSome = true) ∧
        ((∃ id ∈ (Client.check lib c).1.IDs, (mapGet s.idIndex id).isSome = true) →
          ∃ id ∈ (Client.check lib c).1.IDs, ∃ p, mapGet s.idIndex id = some p ∧
            Add lib s c = (s, false,
              some ("Another client uses the same ID (" ++ id ++ "): "
                ++ (deref s.heap p).Name))) ∧
        ((∀ id ∈ (Client.check lib c).1.IDs, mapGet s.idIndex id = none) →
          (Add lib s c).2 = (true, none)))) := by
  refine ⟨?_, ?_, ?_, ?_, ?_, ?_⟩
  · intro h
    exact Add_check_error lib s c _ (by simp [Client.check, h])
  · intro h1 h2
    exact Add_check_error lib s c _ (by simp [Client.check, h1, h2])
  · intro h1 hbad
    obtain ⟨id, hid, hcl, herr⟩ := checkIDs_error lib c.IDs hbad
    refine ⟨id, hid, hcl, Add_check_error lib s c _ ?_⟩
    have h2 : c.IDs.length ≠ 0 := by
      intro h0
      have : c.IDs = [] := List.length_eq_zero.mp h0
      rw [this] at hid
      simp at hid
    unfold Client.check
    simp only [h1, h2, if_false]
    cases hids : checkIDs lib c.IDs with
    | mk ids e =>
      rw [hids] at herr
      simp only at herr
      subst herr
      rfl
  · intro h1 h2 hall h3 err herr
    apply Add_check_error
    have hnone := (checkIDs_none_iff lib c.IDs).mpr hall
    unfold Client.check
    simp only [h1, h2, if_false]
    cases hids : checkIDs lib c.IDs with
    | mk ids e =>
      rw [hids] at hnone
      simp only at hnone
      subst hnone
      simp [h3, herr]
  · intro hinv
    cases hv : (Client.check lib c).2 with
    | none => exact absurd ((check_valid_iff lib c).mp hv) hinv
    | some e =>
      rw [Add_check_error lib s c e hv]
      simp
  · intro hval
    have hv := (check_valid_iff lib c).mpr hval
    have hids : (Client.check lib c).1.IDs = c.IDs.map (canonID lib) := by
      rw [(check_ok lib c hv).1]
    rw [hids]
    refine ⟨?_, ?_⟩
    · constructor
      · intro hres
        cases hn : mapGet s.list c.Name with
        | some p => rfl
        | none =>
          exfalso
          by_cases hex : ∃ id ∈ c.IDs.map (canonID lib), (mapGet s.idIndex id).isSome = true
          · obtain ⟨id, _, p, _, hadd⟩ := Add_valid_conflict lib s c hv hn hex
            rw [hadd] at hres
            simp at hres
          · have hfree : ∀ id ∈ c.IDs.map (canonID lib), mapGet s.idIndex id = none := by
              intro id hid
              cases hg : mapGet s.idIndex id with
              | none => rfl
              | some p => exact absurd ⟨id, hid, by simp [hg]⟩ hex
            rw [Add_of_ok lib s c hv hn hfree] at hres
            simp at hres
      · intro hsome
        obtain ⟨p, hp⟩ := Option.isSome_iff_exists.mp hsome
        rw [Add_valid_name_taken lib s c hv p hp]
    · intro hn
      refine ⟨?_, Add_valid_conflict lib s c hv hn, ?_⟩
      · constructor
        · rintro ⟨hfalse, _⟩
          by_contra hex
          have hfree : ∀ id ∈ c.IDs.map (canonID lib), mapGet s.idIndex id = none := by
            intro id hid
            cases hg : mapGet s.idIndex id with
            | none => rfl
            | some p => exact absurd ⟨id, hid, by simp [hg]⟩ hex
          rw [Add_of_ok lib s c hv hn hfree] at hfalse
          simp at hfalse
        · intro hex
          obtain ⟨id, _, p, _, hadd⟩ := Add_valid_conflict lib s c hv hn hex
          rw [hadd]
          simp
      · intro hfree
        rw [Add_of_ok lib s c hv hn hfree]

theorem C11_Add_outcome_witness :
    ((mkClient "" ["x"]).Name.length = 0 ∧
      ((mkClient "x" []).Name.length ≠ 0 ∧ (mkClient "x" []).IDs.length = 0)) ∧
    (Add goLib laptopDir (mkClient "" ["x"]) = (laptopDir, false, some "Invalid Name") ∧
      Add goLib laptopDir (mkClient "x" []) = (laptopDir, false, some "ID required")) :=
  ⟨by decide,
    (C11_Add_outcome goLib laptopDir (mkClient "" ["x"])).1 (by decide),
    (C11_Add_outcome goLib laptopDir (mkClient "x" [])).2.1 (by decide) (by decide)⟩

/-! ## Rejected calls change nothing -/

/-- C12 (atomicity of rejected mutations): whenever `Add(c)` returns anything
other than `(created = true, no error)`, and whenever `Update(name, c)` returns
an error, the state after the call is the state before it: name index,
identifier index, every stored client and the discovered-host map. -/
theorem C12_rejected_calls_change_nothing (lib : NetLib) (s : clientsContainer)
    (name : String) (c : Client) :
    ((Add lib s c).2 ≠ (true, none) → (Add lib s c).1 = s) ∧
    ((Update lib s name c).2 ≠ none → (Update lib s name c).1 = s) := by
  constructor
  · intro h
    rcases Add_cases lib s c with ⟨hs, _⟩ | ⟨_, _, _, hform⟩
    · exact hs
    · rw [hform] at h
      simp at h
  · intro h
    rcases Update_cases lib s name c with ⟨hs, _⟩ | ⟨old, _, _, _, _, hform⟩
    · exact hs
    · rw [hform] at h
      simp at h

theorem C12_rejected_calls_change_nothing_witness :
    ((Add goLib laptopDir (mkClient "phone" ["10.0.0.5"])).2 ≠ (true, none) ∧
      (Update goLib laptopDir "phone" (mkClient "phone" ["10.0.0.7"])).2 ≠ none) ∧
    ((Add goLib laptopDir (mkClient "phone" ["10.0.0.5"])).1 = laptopDir ∧
      (Update goLib laptopDir "phone" (mkClient "phone" ["10.0.0.7"])).1 = laptopDir) :=
  ⟨by decide,
    (C12_rejected_calls_change_nothing goLib laptopDir "phone"
      (mkClient "phone" ["10.0.0.5"])).1 (by decide),
    (C12_rejected_calls_change_nothing goLib laptopDir "phone"
      (mkClient "phone" ["10.0.0.7"])).2 (by decide)⟩

/-! ## Effect and outcome of `Update` -/

theorem WellFormed_of_Reachable (lib : NetLib) (s : clientsContainer) (h : Reachable lib s) :
    WellFormed s := by
  obtain ⟨dhcp, ops, rfl⟩ := h
  exact WellFormed_run lib ops _ (WellFormed_empty dhcp)

theorem updatedState_list (lib : NetLib) (s : clientsContainer) (c : Client) (name : String)
    (old : Ptr) (hwf : WellFormed s) (hold : mapGet s.list name = some old) (n : String) :
    mapGet (updatedState lib s c old).list n
      = if c.Name = n then some old else if name = n then none else mapGet s.list n := by
  obtain ⟨_, _, hN, _⟩ := hwf
  have holdname := (hN name old hold).2
  simp only [updatedState]
  by_cases hnm : (deref s.heap old).Name = c.Name
  · rw [if_neg (not_not.mpr hnm)]
    have hcn : c.Name = name := by rw [← hnm, holdname]
    by_cases h1 : c.Name = n
    · rw [if_pos h1, ← h1, hcn, hold]
    · have h2 : ¬ name = n := by rw [← hcn]; exact h1
      rw [if_neg h1, if_neg h2]
  · rw [if_pos hnm, mapGet_mapSet, mapGet_mapDelete, holdname]

theorem updatedState_idIndex (lib : NetLib) (s : clientsContainer) (c : Client) (name : String)
    (old : Ptr) (hwf : WellFormed s) (hold : mapGet s.list name = some old) (id : String) :
    mapGet (updatedState lib s c old).idIndex id
      = if id ∈ c.IDs.map (canonID lib) then some old
        else if id ∈ (deref s.heap old).IDs then none else mapGet s.idIndex id := by
  obtain ⟨_, _, _, hX⟩ := hwf
  simp only [updatedState]
  by_cases heq : arraysEqual (deref s.heap old).IDs (c.IDs.map (canonID lib)) = true
  · rw [if_pos heq]
    have he := (arraysEqual_iff _ _).mp heq
    rw [← he]
    by_cases hmem : id ∈ (deref s.heap old).IDs
    · rw [if_pos hmem]
      exact (hX id old).mpr ⟨name, hold, hmem⟩
    · rw [if_neg hmem, if_neg hmem]
  · rw [if_neg heq, mapGet_indexIDs, mapGet_unindexIDs]

theorem updatedState_deref (lib : NetLib) (s : clientsContainer) (c : Client) (name : String)
    (old : Ptr) (hwf : WellFormed s) (hold : mapGet s.list name = some old) (q : Ptr) :
    deref (updatedState lib s c old).heap q
      = if q = old then { c with IDs := c.IDs.map (canonID lib) } else deref s.heap q := by
  obtain ⟨_, _, hN, _⟩ := hwf
  simp only [updatedState]
  exact deref_set s.heap old q _ (hN name old hold).1

/-- C13, as the code has it: after a successful `Update(name, c)` in a
reachable state, the name
index holds under `c.Name` the client that was under `name`, and that client
is now `c` in every field (with `c.IDs` as `check` has left it: addresses in
canonical text), WHOIS info and flags included; nothing is held under the old
name if `c.Name` differs from it; the identifier index maps every identifier
of `c` to that client and holds no identifier of the old value that `c` has
not; every other client keeps its entry in the name index, its value and the
entries of its identifiers in the identifier index; no other name or
identifier appears, and the discovered-host map is unchanged. -/
theorem C13_Update_full_replace (lib : NetLib) (s : clientsContainer) (name : String)
    (c : Client) (hs : Reachable lib s) (hok : (Update lib s name c).2 = none) :
    ∃ p, mapGet s.list name = some p ∧
      mapGet (Update lib s name c).1.list c.Name = some p ∧
      deref (Update lib s name c).1.heap p = (Client.check lib c).1 ∧
      (Client.check lib c).1 = { c with IDs := c.IDs.map (canonID lib) } ∧
      (c.Name ≠ name → mapGet (Update lib s name c).1.list name = none) ∧
      (∀ id ∈ (Client.check lib c).1.IDs, mapGet (Update lib s name c).1.idIndex id = some p) ∧
      (∀ id ∈ (deref s.heap p).IDs, id ∉ (Client.check lib c).1.IDs →
        mapGet (Update lib s name c).1.idIndex id = none) ∧
      (∀ n q, n ≠ name → mapGet s.list n = some q →
        mapGet (Update lib s name c).1.list n = some q ∧
        deref (Update lib s name c).1.heap q = deref s.heap q ∧
        ∀ id ∈ (deref s.heap q).IDs, mapGet (Update lib s name c).1.idIndex id = some q) ∧
      (∀ n, n ≠ c.Name → n ≠ name →
        mapGet (Update lib s name c).1.list n = mapGet s.list n) ∧
      (∀ id, id ∉ (Client.check lib c).1.IDs → id ∉ (deref s.heap p).IDs →
        mapGet (Update lib s name c).1.idIndex id = mapGet s.idIndex id) ∧
      (Update lib s name c).1.ipHost = s.ipHost := by
  have hwf := WellFormed_of_Reachable lib s hs
  rcases Update_cases lib s name c with ⟨_, herr⟩ | ⟨old, hv, hold, hname, hconf, hform⟩
  · exact absurd hok herr
  · have hcheck := (check_ok lib c hv).1
    have hL := updatedState_list lib s c name old hwf hold
    have hI := updatedState_idIndex lib s c name old hwf hold
    have hD := updatedState_deref lib s c name old hwf hold
    obtain ⟨_, _, hN, hX⟩ := hwf
    have holdname := (hN name old hold).2
    have hinj : ∀ n, mapGet s.list n = some old → n = name := by
      intro n hn
      rw [← (hN n old hn).2, holdname]
    have hfree : ∀ id ∈ c.IDs.map (canonID lib), ∀ q, mapGet s.idIndex id = some q → q = old := by
      intro id hid q hq
      rcases hconf with heq | hfr
      · have he := (arraysEqual_iff _ _).mp heq
        rw [← he] at hid
        have := (hX id old).mpr ⟨name, hold, hid⟩
        rw [hq] at this
        exact Option.some.inj this
      · rcases hfr id hid with h0 | h0
        · rw [hq] at h0
          cases h0
        · rw [hq] at h0
          exact Option.some.inj h0
    have hids : (Client.check lib c).1.IDs = c.IDs.map (canonID lib) := by rw [hcheck]
    rw [hform, hids]
    refine ⟨old, hold, ?_, ?_, hcheck, ?_, ?_, ?_, ?_, ?_, ?_, rfl⟩
    · rw [hL, if_pos rfl]
    · rw [hD, if_pos rfl, hcheck]
    · intro hne
      rw [hL, if_neg hne, if_pos rfl]
    · intro id hid
      rw [hI, if_pos hid]
    · intro id hid hnot
      rw [hI, if_neg hnot, if_pos hid]
    · intro n q hne hq
      have hqo : ¬ q = old := by
        intro e
        rw [e] at hq
        exact hne (hinj n hq)
      have hcn : ¬ c.Name = n := by
        intro e
        rcases hname with hh | hh
        · rw [holdname] at hh
          exact hne (hh.trans e).symm
        · rw [e, hq] at hh
          cases hh
      have hne2 : ¬ name = n := fun e => hne e.symm
      refine ⟨?_, ?_, ?_⟩
      · rw [hL, if_neg hcn, if_neg hne2]
        exact hq
      · rw [hD, if_neg hqo]
      · intro id hid
        have hget := (hX id q).mpr ⟨n, hq, hid⟩
        have h1 : id ∉ c.IDs.map (canonID lib) := fun hm => hqo (hfree id hm q hget)
        have h2 : id ∉ (deref s.heap old).IDs := by
          intro hm
          have := (hX id old).mpr ⟨name, hold, hm⟩
          rw [hget] at this
          exact hqo (Option.some.inj this)
        rw [hI, if_neg h1, if_neg h2]
        exact hget
    · intro n h1 h2
      have h1' : ¬ c.Name = n := fun e => h1 e.symm
      have h2' : ¬ name = n := fun e => h2 e.symm
      rw [hL, if_neg h1', if_neg h2']
    · intro id h1 h2
      rw [hI, if_neg h1, if_neg h2]

theorem C13_Update_full_replace_witness :
    (Reachable goLib scenarioB ∧
      (Update goLib scenarioB "laptop2" (mkClient "tablet" ["192.168.1.21"])).2 = none) ∧
    mapGet (Update goLib scenarioB "laptop2" (mkClient "tablet" ["192.168.1.21"])).1.list
        "laptop2" = none ∧
    mapGet (Update goLib scenarioB "laptop2" (mkClient "tablet" ["192.168.1.21"])).1.list
        "tablet" = some 1 := by
  have hr : Reachable goLib scenarioB := ⟨none, _, rfl⟩
  have hok : (Update goLib scenarioB "laptop2" (mkClient "tablet" ["192.168.1.21"])).2 = none := by
    decide
  obtain ⟨p, hp, hnew, _, _, hgone, _⟩ :=
    C13_Update_full_replace goLib scenarioB "laptop2" (mkClient "tablet" ["192.168.1.21"]) hr hok
  have hp1 : p = 1 := by
    have h1 : mapGet scenarioB.list "laptop2" = some 1 := by decide
    rw [h1] at hp
    exact (Option.some.inj hp).symm
  subst hp1
  exact ⟨⟨hr, hok⟩, hgone (by decide), hnew⟩

theorem Update_ok_iff (lib : NetLib) (s : clientsContainer) (name : String) (c : Client)
    (hv : (Client.check lib c).2 = none) :
    (Update lib s name c).2 = none ↔
      ∃ old, mapGet s.list name = some old ∧
        ((deref s.heap old).Name = c.Name ∨ mapGet s.list c.Name = none) ∧
        (arraysEqual (deref s.heap old).IDs (c.IDs.map (canonID lib)) = true ∨
          ∀ id ∈ c.IDs.map (canonID lib),
            mapGet s.idIndex id = none ∨ mapGet s.idIndex id = some old) := by
  constructor
  · intro hok
    rcases Update_cases lib s name c with ⟨_, herr⟩ | ⟨old, _, hold, hname, hconf, _⟩
    · exact absurd hok herr
    · exact ⟨old, hold, hname, hconf⟩
  · rintro ⟨old, hold, hname, hconf⟩
    obtain ⟨h1, _⟩ := check_ok lib c hv
    have hc : Client.check lib c = ({ c with IDs := c.IDs.map (canonID lib) }, none) :=
      Prod.ext h1 hv
    have hnm : ¬ ((deref s.heap old).Name ≠ c.Name ∧ (mapGet s.list c.Name).isSome = true) := by
      rintro ⟨hne, hsome⟩
      rcases hname with hh | hh
      · exact hne hh
      · rw [hh] at hsome
        simp at hsome
    simp only [Update, hc, hold]
    rw [if_neg hnm]
    by_cases heq : arraysEqual (deref s.heap old).IDs (c.IDs.map (canonID lib)) = true
    · simp [heq]
    · have hfr : ∀ id ∈ c.IDs.map (canonID lib),
          mapGet s.idIndex id = none ∨ mapGet s.idIndex id = some old := by
        rcases hconf with h | h
        · exact absurd h heq
        · exact h
      have hnone := (idConflict_skip_none_iff s.idIndex old _).mpr hfr
      simp [heq, hnone]

theorem Update_dup_name (lib : NetLib) (s : clientsContainer) (name : String) (c : Client)
    (hv : (Client.check lib c).2 = none) (old : Ptr) (hold : mapGet s.list name = some old)
    (hne : (deref s.heap old).Name ≠ c.Name) (hsome : (mapGet s.list c.Name).isSome = true) :
    Update lib s name c = (s, some "Client already exists") := by
  obtain ⟨h1, _⟩ := check_ok lib c hv
  have hc : Client.check lib c = ({ c with IDs := c.IDs.map (canonID lib) }, none) :=
    Prod.ext h1 hv
  simp only [Update, hc, hold]
  rw [if_pos ⟨hne, hsome⟩]

/-- C14, as the code has it: in a state that satisfies the uniqueness
invariant, `Update(name, c)`
of a valid client `c` returns an error exactly when `name` is not in the name
index, or `c.Name` differs from `name` and is already in the name index, or
some identifier of `c` (as `check` leaves it in `c.IDs`) is owned in the
identifier index by a client other than the one being updated.  In particular,
when every identifier of `c` is among the prior identifiers of the updated
client, the call succeeds or fails with the duplicate-name error, never with
an identifier conflict. -/
theorem C14_Update_error_iff (lib : NetLib) (s : clientsContainer) (name : String) (c : Client)
    (hu : Uniqueness s) (hval : validClient lib c) :
    ((Update lib s name c).2 ≠ none ↔
      mapGet s.list name = none ∨
      (c.Name ≠ name ∧ (mapGet s.list c.Name).isSome = true) ∨
      ∃ old, mapGet s.list name = some old ∧
        ∃ id ∈ (Client.check lib c).1.IDs, ∃ p, mapGet s.idIndex id = some p ∧ p ≠ old) ∧
    (∀ old, mapGet s.list name = some old →
      (∀ id ∈ (Client.check lib c).1.IDs, id ∈ (deref s.heap old).IDs) →
      (Update lib s name c).2 = none ∨
        (Update lib s name c).2 = some "Client already exists") := by
  have hv := (check_valid_iff lib c).mpr hval
  have hids : (Client.check lib c).1.IDs = c.IDs.map (canonID lib) := by
    rw [(check_ok lib c hv).1]
  rw [hids]
  obtain ⟨hl, hown, _, hi, hX⟩ := hu
  have hnameof : ∀ old, mapGet s.list name = some old → (deref s.heap old).Name = name := by
    intro old hold
    exact hown name old ((mem_iff_mapGet _ hl name old).mpr hold)
  have hidx : ∀ old, mapGet s.list name = some old → ∀ id ∈ (deref s.heap old).IDs,
      mapGet s.idIndex id = some old := by
    intro old hold id hid
    exact (mem_iff_mapGet _ hi id old).mp
      ((hX id old).mpr ⟨name, (mem_iff_mapGet _ hl name old).mpr hold, hid⟩)
  constructor
  · constructor
    · intro herr
      cases hget : mapGet s.list name with
      | none => exact Or.inl rfl
      | some old =>
        right
        by_cases hdup : c.Name ≠ name ∧ (mapGet s.list c.Name).isSome = true
        · exact Or.inl hdup
        · right
          by_contra hno
          apply herr
          rw [Update_ok_iff lib s name c hv]
          refine ⟨old, hget, ?_, Or.inr ?_⟩
          · rw [hnameof old hget]
            by_cases hcn : c.Name = name
            · exact Or.inl hcn.symm
            · right
              have : ¬ (mapGet s.list c.Name).isSome = true := fun h => hdup ⟨hcn, h⟩
              simpa using this
          · intro id hid
            cases hg : mapGet s.idIndex id with
            | none => exact Or.inl rfl
            | some p =>
              right
              by_cases hp : p = old
              · rw [hp]
              · exact absurd ⟨old, rfl, id, hid, p, hg, hp⟩ hno
    · intro hcase hok
      obtain ⟨old, hold, hname, hconf⟩ := (Update_ok_iff lib s name c hv).mp hok
      rcases hcase with h | ⟨hne, hsome⟩ | ⟨old2, hold2, id, hid, p, hg, hp⟩
      · rw [hold] at h
        cases h
      · rcases hname with hh | hh
        · rw [hnameof old hold] at hh
          exact hne hh.symm
        · rw [hh] at hsome
          simp at hsome
      · rw [hold] at hold2
        have ho : old = old2 := Option.some.inj hold2
        subst ho
        rcases hconf with heq | hfr
        · have he := (arraysEqual_iff _ _).mp heq
          rw [← he] at hid
          have := hidx old hold id hid
          rw [hg] at this
          exact hp (Option.some.inj this)
        · rcases hfr id hid with h0 | h0
          · rw [hg] at h0
            cases h0
          · rw [hg] at h0
            exact hp (Option.some.inj h0)
  · intro old hold hsub
    by_cases hdup : (deref s.heap old).Name ≠ c.Name ∧ (mapGet s.list c.Name).isSome = true
    · right
      rw [Update_dup_name lib s name c hv old hold hdup.1 hdup.2]
    · left
      rw [Update_ok_iff lib s name c hv]
      refine ⟨old, hold, ?_, Or.inr ?_⟩
      · by_cases hcn : (deref s.heap old).Name = c.Name
        · exact Or.inl hcn
        · right
          have : ¬ (mapGet s.list c.Name).isSome = true := fun h => hdup ⟨hcn, h⟩
          simpa using this
      · intro id hid
        exact Or.inr (hidx old hold id (hsub id hid))

theorem C14_Update_error_iff_witness :
    (Uniqueness scenarioB ∧ validClient goLib (mkClient "laptop2" ["192.168.1.0/24"])) ∧
    (Update goLib scenarioB "laptop2" (mkClient "laptop2" ["192.168.1.0/24"])).2 ≠ none :=
  ⟨⟨Uniqueness_of_WellFormed _
      (WellFormed_run goLib _ _ (WellFormed_empty none)),
     (check_valid_iff goLib _).mp (by decide)⟩,
    (C14_Update_error_iff goLib scenarioB "laptop2" (mkClient "laptop2" ["192.168.1.0/24"])
      (Uniqueness_of_WellFormed _ (WellFormed_run goLib _ _ (WellFormed_empty none)))
      ((check_valid_iff goLib _).mp (by decide))).1.mpr
      (Or.inr (Or.inr ⟨1, by decide, "192.168.1.0/24", by decide, 0, by decide, by decide⟩))⟩

/-! ## Subnet fallback of `Find` -/

theorem any_subnet_iff (lib : NetLib) (c : Client) (A : IP) :
    c.IDs.any (fun id =>
        match lib.ParseCIDR id with
        | none => false
        | some ipnet => lib.Contains ipnet A) = true
      ↔ ownsSubnetContaining lib c A := by
  unfold ownsSubnetContaining
  rw [List.any_eq_true]
  constructor
  · rintro ⟨id, hid, h⟩
    cases hp : lib.ParseCIDR id with
    | none => simp [hp] at h
    | some ipnet =>
      simp only [hp] at h
      exact ⟨id, hid, ipnet, hp, h⟩
  · rintro ⟨id, hid, ipnet, hp, hc⟩
    exact ⟨id, hid, by simp [hp, hc]⟩

theorem findBySubnet_some (lib : NetLib) (heap : List Client) (A : IP)
    (order : List (String × Ptr)) (c : Client) (h : findBySubnet lib heap A order = some c) :
    ∃ e ∈ order, c = deref heap e.2 ∧ ownsSubnetContaining lib c A := by
  induction order with
  | nil => simp [findBySubnet] at h
  | cons e rest ih =>
    obtain ⟨n, p⟩ := e
    unfold findBySubnet at h
    by_cases hany : (deref heap p).IDs.any (fun id =>
        match lib.ParseCIDR id with
        | none => false
        | some ipnet => lib.Contains ipnet A) = true
    · rw [if_pos hany] at h
      have hc : deref heap p = c := Option.some.inj h
      refine ⟨(n, p), List.mem_cons_self _ _, hc.symm, ?_⟩
      rw [← hc]
      exact (any_subnet_iff lib _ A).mp hany
    · rw [if_neg hany] at h
      obtain ⟨e, he, h1, h2⟩ := ih h
      exact ⟨e, List.mem_cons_of_mem _ he, h1, h2⟩

theorem findBySubnet_none_iff (lib : NetLib) (heap : List Client) (A : IP)
    (order : List (String × Ptr)) :
    findBySubnet lib heap A order = none
      ↔ ∀ e ∈ order, ¬ ownsSubnetContaining lib (deref heap e.2) A := by
  induction order with
  | nil => simp [findBySubnet]
  | cons e rest ih =>
    obtain ⟨n, p⟩ := e
    unfold findBySubnet
    by_cases hany : (deref heap p).IDs.any (fun id =>
        match lib.ParseCIDR id with
        | none => false
        | some ipnet => lib.Contains ipnet A) = true
    · rw [if_pos hany]
      have hown := (any_subnet_iff lib _ A).mp hany
      constructor
      · intro h
        cases h
      · intro h
        exact absurd hown (h (n, p) (List.mem_cons_self _ _))
    · rw [if_neg hany, ih]
      have hnot : ¬ ownsSubnetContaining lib (deref heap p) A :=
        fun h => hany ((any_subnet_iff lib _ A).mpr h)
      constructor
      · intro h e he
        rcases List.mem_cons.mp he with e1 | e1
        · rw [e1]
          exact hnot
        · exact h e e1
      · intro h e he
        exact h e (List.mem_cons_of_mem _ he)

/-- C15 (subnet fallback of `Find`): in a directory without DHCP server, for a
query `q` that parses as the address `A` and is not a key of the identifier
index, and for every order in which the scan visits the name index, `Find(q)`
returns `found = true` if and only if some client of the name index has a
subnet identifier whose network contains `A`; and when it returns
`found = true`, the returned client is a client of the name index that has
such an identifier. -/
theorem C15_Find_subnet_fallback (lib : NetLib) (s : clientsContainer)
    (order1 order2 : List (String × Ptr)) (q : String) (A : IP)
    (hdhcp : s.dhcpServer = none) (hq : lib.ParseIP q = some A)
    (hmiss : mapGet s.idIndex q = none) (horder : order1.Perm s.list) :
    ((Find lib s order1 order2 q).2 = true
      ↔ ∃ e ∈ s.list, ownsSubnetContaining lib (deref s.heap e.2) A) ∧
    ((Find lib s order1 order2 q).2 = true →
      ownsSubnetContaining lib (Find lib s order1 order2 q).1 A ∧
      ∃ e ∈ s.list, (Find lib s order1 order2 q).1 = deref s.heap e.2) := by
  cases hf : findBySubnet lib s.heap A order1 with
  | none =>
    have hres : Find lib s order1 order2 q = (Client.zero, false) := by
      simp [Find, hq, hmiss, hf, hdhcp]
    have hnone := (findBySubnet_none_iff lib s.heap A order1).mp hf
    rw [hres]
    constructor
    · constructor
      · intro h
        cases h
      · rintro ⟨e, he, hown⟩
        exact absurd hown (hnone e (horder.mem_iff.mpr he))
    · intro h
      cases h
  | some c =>
    have hres : Find lib s order1 order2 q = (c, true) := by
      simp [Find, hq, hmiss, hf]
    obtain ⟨e, he, hc, hown⟩ := findBySubnet_some lib s.heap A order1 c hf
    have he2 : e ∈ s.list := horder.mem_iff.mp he
    rw [hres]
    refine ⟨⟨fun _ => ⟨e, he2, ?_⟩, fun _ => rfl⟩, fun _ => ⟨hown, e, he2, hc⟩⟩
    rw [← hc]
    exact hown

theorem C15_Find_subnet_fallback_witness :
    (scenarioB.dhcpServer = none ∧
      goLib.ParseIP "192.168.1.77" = some (v4InV6Prefix ++ [192, 168, 1, 77]) ∧
      mapGet scenarioB.idIndex "192.168.1.77" = none ∧
      List.Perm [("laptop2", 1), ("subnet-kids", 0)] scenarioB.list) ∧
    (Find goLib scenarioB [("laptop2", 1), ("subnet-kids", 0)] [] "192.168.1.77").2 = true :=
  ⟨⟨rfl, by decide, by decide, List.Perm.swap _ _ _⟩,
    (C15_Find_subnet_fallback goLib scenarioB [("laptop2", 1), ("subnet-kids", 0)] []
      "192.168.1.77" (v4InV6Prefix ++ [192, 168, 1, 77]) rfl (by decide) (by decide)
      (List.Perm.swap _ _ _)).1.mpr
      ⟨("subnet-kids", 0), by decide, "192.168.1.0/24", by decide,
        { IP := [192, 168, 1, 0], Mask := [255, 255, 255, 0] }, by decide, by decide⟩⟩

/-! ## Frame of `SetWhoisInfo` -/

/-- C16: `SetWhoisInfo(a, info)` in a reachable state changes one WHOIS field
and nothing else.  The name index and the identifier index are unchanged and
no client is allocated.  If `a` is a key of the identifier index, the WHOIS
info of the owning client becomes `info`, its other fields and every other
client are unchanged, and the discovered-host map is unchanged.  Otherwise no
client changes and every discovered-host entry under another key is
unchanged; if an entry exists for `a`, its WHOIS info becomes `info` and its
hostname and source are unchanged; if none exists, an entry is created for `a`
with source WHOIS, empty hostname and WHOIS info `info`. -/
theorem C16_SetWhoisInfo_frame (lib : NetLib) (s : clientsContainer) (a : String)
    (info : List (List String)) (hs : Reachable lib s) :
    (SetWhoisInfo s a info).list = s.list ∧ (SetWhoisInfo s a info).idIndex = s.idIndex ∧
    (SetWhoisInfo s a info).heap.length = s.heap.length ∧
    (∀ p, mapGet s.idIndex a = some p →
      deref (SetWhoisInfo s a info).heap p = { deref s.heap p with WhoisInfo := info } ∧
      (∀ q, q ≠ p → deref (SetWhoisInfo s a info).heap q = deref s.heap q) ∧
      (SetWhoisInfo s a info).ipHost = s.ipHost) ∧
    (mapGet s.idIndex a = none →
      (SetWhoisInfo s a info).heap = s.heap ∧
      (∀ k, k ≠ a → mapGet (SetWhoisInfo s a info).ipHost k = mapGet s.ipHost k) ∧
      (∀ ch, mapGet s.ipHost a = some ch →
        mapGet (SetWhoisInfo s a info).ipHost a
          = some { Host := ch.Host, Source := ch.Source, WhoisInfo := info }) ∧
      (mapGet s.ipHost a = none →
        mapGet (SetWhoisInfo s a info).ipHost a
          = some { Host := "", Source := ClientSourceWHOIS, WhoisInfo := info })) := by
  obtain ⟨_, _, hN, hX⟩ := WellFormed_of_Reachable lib s hs
  unfold SetWhoisInfo
  cases hidx : mapGet s.idIndex a with
  | some c =>
    obtain ⟨n0, hn0, _⟩ := (hX a c).mp hidx
    have hc : c < s.heap.length := (hN n0 c hn0).1
    refine ⟨rfl, rfl, by simp, ?_, ?_⟩
    · intro p hp
      have hpc : c = p := Option.some.inj hp
      subst hpc
      refine ⟨?_, ?_, rfl⟩
      · simp only
        rw [deref_set _ _ _ _ hc, if_pos rfl]
      · intro q hq
        simp only
        rw [deref_set _ _ _ _ hc, if_neg hq]
    · intro h
      cases h
  | none =>
    cases hent : mapGet s.ipHost a with
    | some ch =>
      refine ⟨rfl, rfl, rfl, ?_, ?_⟩
      · intro p hp
        cases hp
      · intro _
        refine ⟨rfl, ?_, ?_, ?_⟩
        · intro k hk
          have hk2 : ¬ a = k := fun e => hk e.symm
          simp only [mapGet_mapSet, if_neg hk2]
        · intro ch2 hch2
          have e : ch = ch2 := Option.some.inj hch2
          subst e
          simp only [mapGet_mapSet, if_pos]
        · intro h
          cases h
    | none =>
      refine ⟨rfl, rfl, rfl, ?_, ?_⟩
      · intro p hp
        cases hp
      · intro _
        refine ⟨rfl, ?_, ?_, ?_⟩
        · intro k hk
          have hk2 : ¬ a = k := fun e => hk e.symm
          simp only [mapGet_mapSet, if_neg hk2]
        · intro ch2 hch2
          cases hch2
        · intro _
          simp only [mapGet_mapSet, if_pos]

theorem C16_SetWhoisInfo_frame_witness :
    Reachable goLib laptopDir ∧
    (mapGet laptopDir.idIndex "10.0.0.5" = some 0 ∧
      deref (SetWhoisInfo laptopDir "10.0.0.5" [["orgname", "Example"]]).heap 0
        = { deref laptopDir.heap 0 with WhoisInfo := [["orgname", "Example"]] } ∧
      (SetWhoisInfo laptopDir "10.0.0.5" [["orgname", "Example"]]).ipHost = laptopDir.ipHost) := by
  have hr : Reachable goLib laptopDir := ⟨none, [Op.add (mkClient "laptop" ["10.0.0.5"])], rfl⟩
  have h := (C16_SetWhoisInfo_frame goLib laptopDir "10.0.0.5" [["orgname", "Example"]]
    hr).2.2.2.1 0 (by decide)
  exact ⟨hr, by decide, h.1, h.2.2⟩

/-! ## Subnet masks -/

theorem and_top_bit (n : Nat) (hn : n < 4294967296) :
    n &&& 2147483648 = 0 ↔ n < 2147483648 := by
  have h31 : (2147483648 : Nat) = 2 ^ 31 := by norm_num
  constructor
  · intro h
    have ht : (n &&& 2147483648).testBit 31 = false := by
      rw [h]
      simp
    rw [Nat.testBit_and, h31, Nat.testBit_two_pow_self, Bool.and_true,
      Nat.testBit_to_div_mod] at ht
    have h1 : ¬ n / 2147483648 % 2 = 1 := by
      rw [h31]
      simpa using ht
    omega
  · intro h
    apply Nat.eq_of_testBit_eq
    intro i
    rw [Nat.testBit_and, h31, Nat.testBit_two_pow]
    by_cases hi : 31 = i
    · subst hi
      have : n < 2 ^ 31 := by rw [← h31]; exact h
      simp [Nat.testBit_lt_two_pow this]
    · simp [hi]

theorem two_pow_step (k : Nat) (hk : k < 32) : 2 ^ (32 - k) = 2 * 2 ^ (32 - (k + 1)) := by
  have : 32 - k = (32 - (k + 1)) + 1 := by omega
  rw [this, Nat.pow_succ]
  omega

theorem two_pow_le_half (k : Nat) (hk : 1 ≤ k) : 2 ^ (32 - k) ≤ 2147483648 := by
  have h31 : (2147483648 : Nat) = 2 ^ 31 := by norm_num
  rw [h31]
  exact Nat.pow_le_pow_right (by norm_num) (by omega)

theorem maskLoop_spec (i : Nat) : i ≤ 32 → ∀ n, n < 4294967296 →
    ((maskLoop i n).1 = true ↔
      (∃ k, k < i ∧ n + 2 ^ (32 - k) = 4294967296) ∨ 4294967296 ≤ n + 2 ^ (32 - i)) := by
  induction i with
  | zero =>
    intro _ n _
    simp [maskLoop]
  | succ i ih =>
    intro hi n hn
    have hstep := two_pow_step i (by omega)
    have hhalf := two_pow_le_half (i + 1) (by omega)
    by_cases h0 : n = 0
    · subst h0
      simp only [maskLoop, if_true, true_iff]
      left
      exact ⟨0, by omega, by norm_num⟩
    · by_cases htop : n &&& 2147483648 = 0
      · have hlt := (and_top_bit n hn).mp htop
        simp only [maskLoop, h0, htop, if_true, if_false, Bool.false_eq_true, false_iff]
        rintro (⟨k, hk, hkn⟩ | hge)
        · cases k with
          | zero =>
            simp only [Nat.sub_zero] at hkn
            norm_num at hkn
            exact h0 hkn
          | succ k =>
            have := two_pow_le_half (k + 1) (by omega)
            omega
        · omega
      · have hge : 2147483648 ≤ n := by
          by_contra hlt
          exact htop ((and_top_bit n hn).mpr (by omega))
        have hshift : (n <<< 1) % 2 ^ 32 = 2 * n - 4294967296 := by
          rw [Nat.shiftLeft_eq]
          norm_num
          omega
        simp only [maskLoop, h0, htop, if_false, hshift]
        rw [ih (by omega) (2 * n - 4294967296) (by omega)]
        constructor
        · rintro (⟨k, hk, hkn⟩ | hle)
          · left
            have := two_pow_step k (by omega)
            exact ⟨k + 1, by omega, by omega⟩
          · right
            omega
        · rintro (⟨k, hk, hkn⟩ | hle)
          · cases k with
            | zero =>
              simp only [Nat.sub_zero] at hkn
              norm_num at hkn
              omega
            | succ k =>
              left
              have := two_pow_step k (by omega)
              exact ⟨k, by omega, by omega⟩
          · right
            omega

theorem maskLoop_rounds (i n : Nat) : (maskLoop i n).2 ≤ i := by
  induction i generalizing n with
  | zero => simp [maskLoop]
  | succ i ih =>
    unfold maskLoop
    by_cases h0 : n = 0
    · simp [h0]
    · by_cases htop : n &&& 0x80000000 = 0
      · simp [h0, htop]
      · simp only [h0, htop, if_false]
        have := ih ((n <<< 1) % 2 ^ 32)
        omega

theorem prefixMask_add : ∀ k, k ≤ 32 → prefixMask k + 2 ^ (32 - k) = 4294967296 := by
  decide

/-- C17: for a 4-byte mask, `isValidSubnetMask` returns (it does not panic), and
it returns `true` if and only if the mask, read as a big-endian 32-bit value,
is `k` one-bits followed by `32 - k` zero-bits for some `k` from 0 to 32; the
loop is entered at most 32 times. -/
theorem C17_isValidSubnetMask (b0 b1 b2 b3 : Nat) (h0 : b0 < 256) (h1 : b1 < 256)
    (h2 : b2 < 256) (h3 : b3 < 256) :
    (isValidSubnetMask [b0, b1, b2, b3] = some true ↔
      ∃ k, k ≤ 32 ∧ b0 * 2 ^ 24 + b1 * 2 ^ 16 + b2 * 2 ^ 8 + b3 = prefixMask k) ∧
    (isValidSubnetMask [b0, b1, b2, b3] = some true ∨
      isValidSubnetMask [b0, b1, b2, b3] = some false) ∧
    (maskLoop 32 (b0 * 2 ^ 24 + b1 * 2 ^ 16 + b2 * 2 ^ 8 + b3)).2 ≤ 32 := by
  have hn : b0 * 2 ^ 24 + b1 * 2 ^ 16 + b2 * 2 ^ 8 + b3 < 4294967296 := by
    norm_num
    omega
  have hval : isValidSubnetMask [b0, b1, b2, b3]
      = some (maskLoop 32 (b0 * 2 ^ 24 + b1 * 2 ^ 16 + b2 * 2 ^ 8 + b3)).1 := rfl
  have hspec := maskLoop_spec 32 (Nat.le_refl 32) _ hn
  refine ⟨?_, ?_, maskLoop_rounds 32 _⟩
  · rw [hval]
    simp only [Option.some.injEq]
    rw [hspec]
    generalize b0 * 2 ^ 24 + b1 * 2 ^ 16 + b2 * 2 ^ 8 + b3 = n at hn
    constructor
    · rintro (⟨k, hk, hkn⟩ | hle)
      · have := prefixMask_add k (by omega)
        exact ⟨k, by omega, by omega⟩
      · have := prefixMask_add 32 (Nat.le_refl 32)
        simp only [Nat.sub_self, Nat.pow_zero] at this hle
        exact ⟨32, Nat.le_refl 32, by omega⟩
    · rintro ⟨k, hk, hkn⟩
      have := prefixMask_add k hk
      by_cases h32 : k = 32
      · right
        subst h32
        simp only [Nat.sub_self, Nat.pow_zero] at this ⊢
        omega
      · left
        exact ⟨k, by omega, by omega⟩
  · rw [hval]
    cases (maskLoop 32 (b0 * 2 ^ 24 + b1 * 2 ^ 16 + b2 * 2 ^ 8 + b3)).1 with
    | true => exact Or.inl rfl
    | false => exact Or.inr rfl

theorem C17_isValidSubnetMask_witness :
    ((255 : Nat) < 256 ∧ (0 : Nat) < 256) ∧
    (isValidSubnetMask [255, 255, 255, 0] = some true ↔
      ∃ k, k ≤ 32 ∧ 255 * 2 ^ 24 + 255 * 2 ^ 16 + 255 * 2 ^ 8 + 0 = prefixMask k) :=
  ⟨by decide,
    (C17_isValidSubnetMask 255 255 255 0 (by decide) (by decide) (by decide) (by decide)).1⟩

/-- The masks 255.255.255.0, 0.0.0.0 and 255.255.255.255 are accepted, the mask
255.0.255.0 is rejected, and a slice of fewer than four bytes makes
`binary.BigEndian.Uint32` panic. -/
theorem isValidSubnetMask_eval :
    isValidSubnetMask [255, 255, 255, 0] = some true ∧
    isValidSubnetMask [0, 0, 0, 0] = some true ∧
    isValidSubnetMask [255, 255, 255, 255] = some true ∧
    isValidSubnetMask [255, 0, 255, 0] = some false ∧
    (maskLoop 32 4294967295).2 = 32 ∧
    isValidSubnetMask [255, 255, 255] = none := by
  decide

/-! ## Priority of the discovery sources -/

/-- C19: evaluation.  The constant of the ARP source is greater than the
constant of the DHCP source.  For an address with an ARP-sourced entry,
`AddHost` with source DHCP returns `added = false` and leaves the directory
unchanged; for an address with a DHCP-sourced entry, `AddHost` with source ARP
returns `added = true` and the entry gets the source ARP. -/
theorem C19_ARP_outranks_DHCP :
    ClientSourceDHCP < ClientSourceARP ∧
    mapGet printerDir.ipHost "10.0.0.5"
      = some { Host := "printer", Source := ClientSourceARP, WhoisInfo := [] } ∧
    AddHost printerDir "10.0.0.5" "printer" ClientSourceDHCP = (printerDir, false, none) ∧
    mapGet dhcpHostDir.ipHost "10.0.0.5"
      = some { Host := "pc", Source := ClientSourceDHCP, WhoisInfo := [] } ∧
    (AddHost dhcpHostDir "10.0.0.5" "pc" ClientSourceARP).2 = (true, none) ∧
    mapGet (AddHost dhcpHostDir "10.0.0.5" "pc" ClientSourceARP).1.ipHost "10.0.0.5"
      = some { Host := "pc", Source := ClientSourceARP, WhoisInfo := [] } :=
  ⟨by decide, by decide, rfl, by decide, by decide, by decide⟩

/-! ## The line parser of `addFromSystemARP` -/

theorem startsWith_pair (s : List Char) (x y : Char) :
    startsWith s [x, y] = true ↔ ∃ t, s = x :: y :: t := by
  cases s with
  | nil => simp [startsWith]
  | cons a s1 =>
    cases s1 with
    | nil => simp [startsWith]
    | cons b s2 =>
      simp only [startsWith, Bool.and_true, Bool.and_eq_true, decide_eq_true_eq, List.cons.injEq]
      constructor
      · rintro ⟨h1, h2⟩
        exact ⟨s2, h1, h2, rfl⟩
      · rintro ⟨t, h1, h2, _⟩
        exact ⟨h1, h2⟩

theorem indexFrom_some (sub : List Char) (s : List Char) (i : Nat)
    (h : indexFrom s sub = some i) :
    startsWith (s.drop i) sub = true ∧ (∀ j, j < i → startsWith (s.drop j) sub = false) ∧
      i ≤ s.length := by
  induction s generalizing i with
  | nil =>
    unfold indexFrom at h
    by_cases hs : startsWith [] sub = true
    · rw [if_pos hs] at h
      have hi : i = 0 := (Option.some.inj h).symm
      subst hi
      exact ⟨hs, fun j hj => absurd hj (Nat.not_lt_zero j), Nat.le_refl 0⟩
    · rw [if_neg hs] at h
      cases h
  | cons a s ih =>
    unfold indexFrom at h
    by_cases hs : startsWith (a :: s) sub = true
    · rw [if_pos hs] at h
      have hi : i = 0 := (Option.some.inj h).symm
      subst hi
      exact ⟨hs, fun j hj => absurd hj (Nat.not_lt_zero j), Nat.zero_le _⟩
    · rw [if_neg hs] at h
      cases hrec : indexFrom s sub with
      | none =>
        rw [hrec] at h
        cases h
      | some k =>
        rw [hrec] at h
        have hi : i = k + 1 := (Option.some.inj h).symm
        subst hi
        obtain ⟨h1, h2, h3⟩ := ih k hrec
        refine ⟨by simpa using h1, ?_, by simpa using h3⟩
        intro j hj
        cases j with
        | zero => simpa using hs
        | succ j => simpa using h2 j (by omega)

/-- C20: the per-line parser of `addFromSystemARP` never slices out of range.
It skips the line when " (" or ") " does not occur in it or the first " (" is
not before the first ") ".  Otherwise, with `o` the first position of " (" and
`c` the first position of ") ", the bounds satisfy `o + 2 ≤ c ≤ length`, and
the parser takes as host the text before position `o` and as ip the text from
position `o + 2` up to position `c`. -/
theorem C20_parseARPLine_in_range (ln : List Char) :
    (Index ln [' ', '('] = -1 ∨ Index ln [')', ' '] = -1
        ∨ Index ln [' ', '('] ≥ Index ln [')', ' '] →
      parseARPLine ln = ARPLine.skipped) ∧
    (¬ (Index ln [' ', '('] = -1 ∨ Index ln [')', ' '] = -1
        ∨ Index ln [' ', '('] ≥ Index ln [')', ' ']) →
      ∃ o c : Nat, Index ln [' ', '('] = (o : Int) ∧ Index ln [')', ' '] = (c : Int) ∧
        o + 2 ≤ c ∧ c ≤ ln.length ∧
        startsWith (ln.drop o) [' ', '('] = true ∧
        (∀ j, j < o → startsWith (ln.drop j) [' ', '('] = false) ∧
        startsWith (ln.drop c) [')', ' '] = true ∧
        (∀ j, j < c → startsWith (ln.drop j) [')', ' '] = false) ∧
        parseARPLine ln
          = ARPLine.fields (ln.take o) ((ln.drop (o + 2)).take (c - (o + 2)))) ∧
    parseARPLine ln ≠ ARPLine.outOfRange := by
  have hskip : (Index ln [' ', '('] = -1 ∨ Index ln [')', ' '] = -1
        ∨ Index ln [' ', '('] ≥ Index ln [')', ' ']) → parseARPLine ln = ARPLine.skipped := by
    intro h
    unfold parseARPLine
    rw [if_pos h]
  have hparse : ¬ (Index ln [' ', '('] = -1 ∨ Index ln [')', ' '] = -1
        ∨ Index ln [' ', '('] ≥ Index ln [')', ' ']) →
      ∃ o c : Nat, Index ln [' ', '('] = (o : Int) ∧ Index ln [')', ' '] = (c : Int) ∧
        o + 2 ≤ c ∧ c ≤ ln.length ∧
        startsWith (ln.drop o) [' ', '('] = true ∧
        (∀ j, j < o → startsWith (ln.drop j) [' ', '('] = false) ∧
        startsWith (ln.drop c) [')', ' '] = true ∧
        (∀ j, j < c → startsWith (ln.drop j) [')', ' '] = false) ∧
        parseARPLine ln
          = ARPLine.fields (ln.take o) ((ln.drop (o + 2)).take (c - (o + 2))) := by
    intro hno
    cases ho : indexFrom ln [' ', '('] with
    | none =>
      exfalso
      apply hno
      left
      simp [Index, ho]
    | some o =>
      cases hc : indexFrom ln [')', ' '] with
      | none =>
        exfalso
        apply hno
        right
        left
        simp [Index, hc]
      | some c =>
        have hio : Index ln [' ', '('] = (o : Int) := by simp [Index, ho]
        have hic : Index ln [')', ' '] = (c : Int) := by simp [Index, hc]
        have hlt : o < c := by
          by_contra hge
          apply hno
          right
          right
          rw [hio, hic]
          have : c ≤ o := Nat.le_of_not_lt hge
          exact_mod_cast this
        obtain ⟨ho1, ho2, _⟩ := indexFrom_some _ ln o ho
        obtain ⟨hc1, hc2, hc3⟩ := indexFrom_some _ ln c hc
        obtain ⟨t1, ht1⟩ := (startsWith_pair _ _ _).mp ho1
        obtain ⟨t2, ht2⟩ := (startsWith_pair _ _ _).mp hc1
        have h2 : o + 2 ≤ c := by
          by_contra hne
          have hco : c = o + 1 := by omega
          have hd : ln.drop (o + 1) = (ln.drop o).drop 1 := by
            rw [List.drop_drop]
          rw [hco, hd, ht1] at ht2
          simp at ht2
        refine ⟨o, c, hio, hic, h2, hc3, ho1, ho2, hc1, hc2, ?_⟩
        unfold parseARPLine
        rw [if_neg hno, hio, hic]
        have hlen : (c : Int) ≤ (ln.length : Int) := by exact_mod_cast hc3
        have hoc : (o : Int) ≤ (c : Int) := by exact_mod_cast (Nat.le_of_lt hlt)
        have hol : (o : Int) ≤ (ln.length : Int) := le_trans hoc hlen
        have ho2c : (o : Int) + 2 ≤ (c : Int) := by exact_mod_cast h2
        have hs1 : slice ln 0 (o : Int) = some (ln.take o) := by
          unfold slice
          rw [if_pos ⟨le_refl 0, Int.natCast_nonneg o, hol⟩]
          simp
        have hs2 : slice ln ((o : Int) + 2) (c : Int)
            = some ((ln.drop (o + 2)).take (c - (o + 2))) := by
          unfold slice
          rw [if_pos ⟨by omega, ho2c, hlen⟩]
          have e1 : ((o : Int) + 2).toNat = o + 2 := by omega
          rw [e1]
          simp
        rw [hs1, hs2]
  refine ⟨hskip, hparse, ?_⟩
  by_cases h : Index ln [' ', '('] = -1 ∨ Index ln [')', ' '] = -1
      ∨ Index ln [' ', '('] ≥ Index ln [')', ' ']
  · rw [hskip h]
    simp
  · obtain ⟨o, c, _, _, _, _, _, _, _, _, hres⟩ := hparse h
    rw [hres]
    simp

theorem C20_parseARPLine_in_range_witness :
    ¬ (Index arpLine [' ', '('] = -1 ∨ Index arpLine [')', ' '] = -1
        ∨ Index arpLine [' ', '('] ≥ Index arpLine [')', ' ']) ∧
    ∃ o c : Nat, Index arpLine [' ', '('] = (o : Int) ∧ Index arpLine [')', ' '] = (c : Int) ∧
      o + 2 ≤ c ∧ c ≤ arpLine.length ∧
      startsWith (arpLine.drop o) [' ', '('] = true ∧
      (∀ j, j < o → startsWith (arpLine.drop j) [' ', '('] = false) ∧
      startsWith (arpLine.drop c) [')', ' '] = true ∧
      (∀ j, j < c → startsWith (arpLine.drop j) [')', ' '] = false) ∧
      parseARPLine arpLine
        = ARPLine.fields (arpLine.take o) ((arpLine.drop (o + 2)).take (c - (o + 2))) :=
  ⟨by decide, (C20_parseARPLine_in_range arpLine).2.1 (by decide)⟩

/-- The parser evaluated on a line of arp output, on a line without
parenthesis and on a line whose ") " comes before its " (". -/
theorem parseARPLine_eval :
    parseARPLine arpLine = ARPLine.fields "router".data "192.168.1.1".data ∧
    parseARPLine "no parenthesis here".data = ARPLine.skipped ∧
    parseARPLine "a) b (c".data = ARPLine.skipped ∧
    parseARPLine [] = ARPLine.skipped := by
  decide

/-! ## Identifiers as supplied and identifiers as stored -/

/-- C11, counterexample: in the directory of scenario B, where "laptop2" owns
192.168.1.20, the client "tablet" with the single identifier
"::ffff:192.168.1.20" is valid, its name is not in the name index and its
identifier is not a key of the identifier index; `Add` still returns the
identifier-conflict error that names "laptop2", not `(created = true, no
error)`. -/
theorem C11_Add_conflict_without_indexed_identifier :
    (Client.check goLib (mkClient "tablet" ["::ffff:192.168.1.20"])).2 = none ∧
    mapGet scenarioB.list (mkClient "tablet" ["::ffff:192.168.1.20"]).Name = none ∧
    (∀ id ∈ (mkClient "tablet" ["::ffff:192.168.1.20"]).IDs,
      mapGet scenarioB.idIndex id = none) ∧
    (Add goLib scenarioB (mkClient "tablet" ["::ffff:192.168.1.20"])).2
      = (false, some "Another client uses the same ID (192.168.1.20): laptop2") ∧
    (Add goLib scenarioB (mkClient "tablet" ["::ffff:192.168.1.20"])).2 ≠ (true, none) := by
  decide

/-- C13, counterexample: in the directory of scenario B, `Update` of "laptop2"
to a client of the same name with the single identifier "::ffff:192.168.1.20"
succeeds; the client stored under "laptop2" then has the identifier
"192.168.1.20", so it is not equal to the client supplied, and the identifier
index has no entry under the identifier supplied. -/
theorem C13_Update_stores_canonical_identifiers :
    (Update goLib scenarioB "laptop2" (mkClient "laptop2" ["::ffff:192.168.1.20"])).2 = none ∧
    mapGet (Update goLib scenarioB "laptop2"
        (mkClient "laptop2" ["::ffff:192.168.1.20"])).1.list "laptop2" = some 1 ∧
    (deref (Update goLib scenarioB "laptop2"
        (mkClient "laptop2" ["::ffff:192.168.1.20"])).1.heap 1).IDs = ["192.168.1.20"] ∧
    deref (Update goLib scenarioB "laptop2"
        (mkClient "laptop2" ["::ffff:192.168.1.20"])).1.heap 1
      ≠ mkClient "laptop2" ["::ffff:192.168.1.20"] ∧
    "::ffff:192.168.1.20" ∈ (mkClient "laptop2" ["::ffff:192.168.1.20"]).IDs ∧
    mapGet (Update goLib scenarioB "laptop2"
        (mkClient "laptop2" ["::ffff:192.168.1.20"])).1.idIndex "::ffff:192.168.1.20" = none := by
  decide

/-- C14, counterexample: the directory holds "laptop" with 10.0.0.5 and "phone"
with 10.0.0.6 and satisfies the uniqueness invariant.  `Update` of "phone" to a
valid client of the same name with the single identifier "::ffff:10.0.0.5"
finds the name, does not change it, and no identifier of the client supplied
is a key of the identifier index, so none is owned by another client; the call
still returns the identifier-conflict error that names "laptop". -/
theorem C14_Update_conflict_without_indexed_identifier :
    Uniqueness twoOwnersDir ∧
    validClient goLib (mkClient "phone" ["::ffff:10.0.0.5"]) ∧
    mapGet twoOwnersDir.list "phone" = some 1 ∧
    (mkClient "phone" ["::ffff:10.0.0.5"]).Name = "phone" ∧
    (∀ id ∈ (mkClient "phone" ["::ffff:10.0.0.5"]).IDs, mapGet twoOwnersDir.idIndex id = none) ∧
    (Update goLib twoOwnersDir "phone" (mkClient "phone" ["::ffff:10.0.0.5"])).2
      = some "Another client uses the same ID (10.0.0.5): laptop" :=
  ⟨Uniqueness_of_WellFormed _ (WellFormed_run goLib _ _ (WellFormed_empty none)),
    (check_valid_iff goLib _).mp (by decide), by decide, by decide, by decide, by decide⟩

end AdGuardHome
